import Mathlib

set_option autoImplicit false

/-!
Shallow embedding of the Boyer-Myrvold planarity embedder core of this
repository (graphEmbed.c).  The vertex and arc records, the intrusive list
collection, the integer stack and the accessor layer live outside the given
sources (graph.h / graphUtils.c), so they are modelled from the
specification; every algorithmic routine below is translated statement by
statement from graphEmbed.c.  Loops whose termination depends on pointer
structure take an explicit fuel argument.
-/

/-- Return codes of the engine: OK, NOTOK (internal failure) and
NONEMBEDDABLE, mirroring the C constants. -/
inductive RES where
  | OK
  | NOTOK
  | NONEMBEDDABLE
  deriving DecidableEq

/-- Edge types assigned during the DFS (EDGE_TYPE_* constants); `undefinedT`
is the state before classification. -/
inductive EdgeType where
  | undefinedT
  | child
  | parentT
  | back
  | forward
  deriving DecidableEq

/-- Arc (half-edge) record: neighbor vertex, doubly linked adjacency links
(`next` = link[0], `prev` = link[1], `none` = adjacency list end marker),
edge type and the inversion flag carried by tree-child arcs.  Modelled from
the spec (the record layout is declared outside graphEmbed.c). -/
structure ARec where
  neighbor : Nat
  next : Option Nat
  prev : Option Nat
  etype : EdgeType
  inverted : Bool
  deriving DecidableEq

/-- Vertex record with the fields of section 3 of the spec.  The three
list-collection lists are modelled as Lean lists (head = first element);
`fwdArcList` is the head arc of the circular forward-arc list whose links
live in the arc records themselves.  `none` stands for NIL.  Modelled from
the spec (the record layout is declared outside graphEmbed.c). -/
structure VRec where
  parent : Option Nat
  index : Nat
  visited : Bool
  visitedInfo : Nat
  leastAncestor : Nat
  lowpoint : Nat
  sortedDFSChildList : List Nat
  separatedDFSChildList : List Nat
  pertinentBicompList : List Nat
  fwdArcList : Option Nat
  pertinentAdjacencyInfo : Option Nat
  firstArc : Option Nat
  lastArc : Option Nat
  extFace0 : Nat
  extFace1 : Nat
  extFaceInversionFlag : Bool
  deriving DecidableEq

/-- A cleared vertex record, as produced by fpInitVertexRec when a root copy
is consumed by a merge.  Modelled from the spec: root copies are consumed by
merges and their fields cleared. -/
def initVertexRec : VRec :=
  { parent := none, index := 0, visited := false, visitedInfo := 0,
    leastAncestor := 0, lowpoint := 0, sortedDFSChildList := [],
    separatedDFSChildList := [], pertinentBicompList := [],
    fwdArcList := none, pertinentAdjacencyInfo := none,
    firstArc := none, lastArc := none, extFace0 := 0, extFace1 := 0,
    extFaceInversionFlag := false }

/-- The whole embedder state: N primary vertices (indices [0,N)), the root
copies at [N,2N), the arc arena, the reusable integer stack (pairs pushed by
sp_Push2) and its capacity, the arc capacity and the embed flags. -/
structure GState where
  N : Nat
  vrec : Nat → VRec
  arc : Nat → ARec
  stack : List (Nat × Bool)
  stackCapacity : Nat
  arcCapacity : Nat
  embedFlags : Nat

/-- Twin arc lookup: arcs come in pairs at adjacent indices, `twin a = a XOR 1`. -/
def twinArc (a : Nat) : Nat := a ^^^ 1

/-- Update the record of one vertex. -/
def updV (g : GState) (v : Nat) (f : VRec → VRec) : GState :=
  { g with vrec := fun x => if x = v then f (g.vrec v) else g.vrec x }

/-- Update the record of one arc. -/
def updA (g : GState) (a : Nat) (f : ARec → ARec) : GState :=
  { g with arc := fun x => if x = a then f (g.arc a) else g.arc x }

/-- gp_GetExtFaceVertex: the external face neighbor on link `lk`
(false = link 0, true = link 1). -/
def getExtFace (g : GState) (v : Nat) (lk : Bool) : Nat :=
  if lk then (g.vrec v).extFace1 else (g.vrec v).extFace0

/-- gp_SetExtFaceVertex. -/
def setExtFace (g : GState) (v : Nat) (lk : Bool) (w : Nat) : GState :=
  updV g v (fun r => if lk then { r with extFace1 := w } else { r with extFace0 := w })

/-- gp_GetArc on a vertex: link 0 = first arc, link 1 = last arc. -/
def getVArc (g : GState) (v : Nat) (lk : Bool) : Option Nat :=
  if lk then (g.vrec v).lastArc else (g.vrec v).firstArc

/-- gp_SetArc on a vertex. -/
def setVArc (g : GState) (v : Nat) (lk : Bool) (a : Option Nat) : GState :=
  updV g v (fun r => if lk then { r with lastArc := a } else { r with firstArc := a })

/-- gp_GetAdjacentArc on an arc: link 0 = next, link 1 = prev. -/
def getALink (g : GState) (a : Nat) (lk : Bool) : Option Nat :=
  if lk then (g.arc a).prev else (g.arc a).next

/-- gp_SetAdjacentArc on an arc. -/
def setALink (g : GState) (a : Nat) (lk : Bool) (v : Option Nat) : GState :=
  updA g a (fun r => if lk then { r with prev := v } else { r with next := v })

/-- gp_SetAdjacentArc applied through an optional arc index; writing through
an adjacency-list end marker is a no-op in the model. -/
def setALinkO (g : GState) (a : Option Nat) (lk : Bool) (v : Option Nat) : GState :=
  match a with
  | some a' => setALink g a' lk v
  | none => g

/-- sp_Push2 of a (vertex, link) pair onto the reusable stack. -/
def pushStack (g : GState) (v : Nat) (lk : Bool) : GState :=
  { g with stack := (v, lk) :: g.stack }

/-- LCAppend, modelled from the spec: append an item at the tail of an
intrusive list in O(1), returning the (unchanged) head. -/
def LCAppend (l : List Nat) (x : Nat) : List Nat := l ++ [x]

/-- LCPrepend, modelled from the spec: insert an item at the head of an
intrusive list, the item becoming the new head. -/
def LCPrepend (l : List Nat) (x : Nat) : List Nat := x :: l

/-- LCDelete, modelled from the spec: remove an item from an intrusive list. -/
def LCDelete (l : List Nat) (x : Nat) : List Nat := l.erase x

/-- LCGetNext, modelled from the spec: successor of `x` in the list, or NIL
at the end. -/
def LCGetNext (l : List Nat) (x : Nat) : Option Nat :=
  match l.dropWhile (fun y => y ≠ x) with
  | _ :: y :: _ => some y
  | _ => none

/-- PERTINENT(theGraph, W), modelled from the spec: a vertex is pertinent in
step I when its pertinentAdjacencyInfo is set or its pertinentBicompList is
non-empty. -/
def pertinentB (g : GState) (w : Nat) : Bool :=
  (g.vrec w).pertinentAdjacencyInfo.isSome || !(g.vrec w).pertinentBicompList.isEmpty

/-- EXTERNALLYACTIVE(theGraph, W, I), modelled from the spec: leastAncestor
below I, or the first (minimum-lowpoint) separated DFS child has lowpoint
below I. -/
def externallyActiveB (g : GState) (w : Nat) (i : Nat) : Bool :=
  decide ((g.vrec w).leastAncestor < i) ||
    (match (g.vrec w).separatedDFSChildList with
     | [] => false
     | c :: _ => decide ((g.vrec c).lowpoint < i))

/-- The three activity classes of a vertex in step I. -/
inductive VAS where
  | external
  | internal
  | inactive
  deriving DecidableEq

/-- The _VertexActiveStatus classification, modelled from the spec: externally
active dominates, otherwise pertinent means internally active, otherwise
inactive. -/
def vas (g : GState) (w : Nat) (i : Nat) : VAS :=
  if externallyActiveB g w i then .external
  else if pertinentB g w then .internal
  else .inactive

/-- One pass of _InvertVertex's arc loop (graphEmbed.c lines 620-628): walk
the adjacency list exchanging each arc's next and prev links, advancing by
the old next link. -/
def invertLoop : GState → Option Nat → Nat → GState
  | g, none, _ => g
  | g, some _, 0 => g
  | g, some j, fuel + 1 =>
      let temp := (g.arc j).next
      let g' := updA g j (fun r => { r with next := r.prev, prev := temp })
      invertLoop g' temp fuel

/-- _InvertVertex (graphEmbed.c lines 613-639): swap every adjacency arc's
links, swap the vertex's first/last arc indicators, and swap its two
external face indicators. -/
def invertVertex (g : GState) (v : Nat) (fuel : Nat) : GState :=
  let g1 := invertLoop g ((g.vrec v).firstArc) fuel
  let g2 := updV g1 v (fun r => { r with firstArc := r.lastArc, lastArc := r.firstArc })
  updV g2 v (fun r => { r with extFace0 := r.extFace1, extFace1 := r.extFace0 })

/-- The first half of the back-edge branch of the DFS arc scan
(graphEmbed.c lines 193-208): type arc `j` as back and its twin as forward,
and unlink the twin from the ancestor's adjacency list. -/
def backEdgeRemove (g : GState) (u j : Nat) : GState :=
  let g1 := updA g j (fun r => { r with etype := .back })
  let jTwin := twinArc j
  let g2 := updA g1 jTwin (fun r => { r with etype := .forward })
  let uneighbor := (g2.arc j).neighbor
  let jPrev := (g2.arc jTwin).prev
  let jNext := (g2.arc jTwin).next
  let g3 := match jPrev with
    | some p => setALink g2 p false jNext
    | none => updV g2 uneighbor (fun r => { r with firstArc := jNext })
  match jNext with
  | some n => setALink g3 n true jPrev
  | none => updV g3 uneighbor (fun r => { r with lastArc := jPrev })

/-- The second half of the back-edge branch (graphEmbed.c lines 210-229):
insert the twin into the ancestor's circular fwdArcList just before the
head, and update the least ancestor of `u`. -/
def backEdgeInsertFwd (g : GState) (u j : Nat) : GState :=
  let jTwin := twinArc j
  let uneighbor := (g.arc j).neighbor
  let g5 := match (g.vrec uneighbor).fwdArcList with
    | some e =>
        let p2 := (g.arc e).prev
        let ga := setALink g jTwin true p2
        let gb := setALink ga jTwin false (some e)
        let gc := setALink gb e true (some jTwin)
        setALinkO gc p2 false (some jTwin)
    | none =>
        let ga := updV g uneighbor (fun r => { r with fwdArcList := some jTwin })
        let gb := setALink ga jTwin true (some jTwin)
        setALink gb jTwin false (some jTwin)
  let uIdx := (g5.vrec uneighbor).index
  if uIdx < (g5.vrec u).leastAncestor then
    updV g5 u (fun r => { r with leastAncestor := uIdx })
  else g5

/-- The back-edge branch of the DFS arc scan in _EmbeddingInitialize
(graphEmbed.c lines 193-229): type arc `j` as back and its twin as forward,
unlink the twin from the ancestor's adjacency list, insert the twin into the
ancestor's circular fwdArcList just before the head, and update the least
ancestor of `u`. -/
def backEdgeStep (g : GState) (u j : Nat) : GState :=
  backEdgeInsertFwd (backEdgeRemove g u j) u j

/-- The body of the lowpoint pass for one vertex (graphEmbed.c lines
251-265): fold the minimum of the children's lowpoints starting from I, then
take the leastAncestor if smaller. -/
def lowpointOf (g : GState) (i : Nat) : Nat :=
  let leastValue :=
    (g.vrec i).sortedDFSChildList.foldl
      (fun lv c => if lv > (g.vrec c).lowpoint then (g.vrec c).lowpoint else lv) i
  if leastValue > (g.vrec i).leastAncestor then (g.vrec i).leastAncestor else leastValue

/-- One iteration of the lowpoint pass: store the computed lowpoint of I. -/
def lowpointStep (g : GState) (i : Nat) : GState :=
  updV g i (fun r => { r with lowpoint := lowpointOf g i })

/-- The reverse-DFI lowpoint pass of _EmbeddingInitialize (graphEmbed.c
lines 249-266): `lowpointLoop g k` processes I = k-1, k-2, ..., 0. -/
def lowpointLoop : GState → Nat → GState
  | g, 0 => g
  | g, k + 1 => lowpointLoop (lowpointStep g k) k

/-- The pertinent-bicomp-list insertion of _WalkUp (graphEmbed.c lines
943-965): the found bicomp root R is recorded, as the DFS child R - N, in
the pertinent bicomp list of the parent copy vertex; appended when
lowpoint(R-N) < I (externally active) and prepended otherwise. -/
def pertinentRootInsert (g : GState) (i r : Nat) : GState :=
  let rootChild := r - g.N
  match (g.vrec rootChild).parent with
  | none => g
  | some parentCopy =>
      let bl := (g.vrec parentCopy).pertinentBicompList
      let bl' := if (g.vrec rootChild).lowpoint < i then LCAppend bl rootChild
                 else LCPrepend bl rootChild
      updV g parentCopy (fun rr => { rr with pertinentBicompList := bl' })

/-- The Zig/Zag loop of _WalkUp (graphEmbed.c lines 877-971): parallel
traversal of the external face until vertex I, a visited-in-step-I vertex,
or a bicomp root is met; a found root is recorded pertinent and the
traversal restarts at the parent copy. -/
def walkUpLoop : Nat → GState → Nat → Nat → Nat → Bool → Bool → GState
  | 0, g, _, _, _, _, _ => g
  | fuel + 1, g, i, zig, zag, zigPL, zagPL =>
    if zig = i then g
    else
      let nextZig := getExtFace g zig (!zigPL)
      if g.N ≤ nextZig then
        if (g.vrec zig).visitedInfo = i then g
        else
          let r := nextZig
          let nextZag := getExtFace g r (if getExtFace g r false = zig then true else false)
          if (g.vrec nextZag).visitedInfo = i then g
          else
            let g1 := updV g zig (fun rr => { rr with visitedInfo := i })
            let g2 := updV g1 zag (fun rr => { rr with visitedInfo := i })
            let g3 := pertinentRootInsert g2 i r
            match (g3.vrec (r - g3.N)).parent with
            | none => g3
            | some parentCopy => walkUpLoop fuel g3 i parentCopy parentCopy true false
      else
        let nextZag := getExtFace g zag (!zagPL)
        if g.N ≤ nextZag then
          if (g.vrec zag).visitedInfo = i then g
          else
            let r := nextZag
            let nextZig2 := getExtFace g r (if getExtFace g r false = zag then true else false)
            if (g.vrec nextZig2).visitedInfo = i then g
            else
              let g1 := updV g zig (fun rr => { rr with visitedInfo := i })
              let g2 := updV g1 zag (fun rr => { rr with visitedInfo := i })
              let g3 := pertinentRootInsert g2 i r
              match (g3.vrec (r - g3.N)).parent with
              | none => g3
              | some parentCopy => walkUpLoop fuel g3 i parentCopy parentCopy true false
        else
          if (g.vrec zig).visitedInfo = i then g
          else if (g.vrec zag).visitedInfo = i then g
          else
            let g1 := updV g zig (fun rr => { rr with visitedInfo := i })
            let g2 := updV g1 zag (fun rr => { rr with visitedInfo := i })
            let zigPL' := if getExtFace g2 nextZig false = zig then false else true
            let zagPL' := if getExtFace g2 nextZag false = zag then false else true
            walkUpLoop fuel g2 i nextZig nextZag zigPL' zagPL'

/-- _WalkUp (graphEmbed.c lines 864-972): mark W = neighbor(J) pertinent by
storing the forward arc J in its pertinentAdjacencyInfo, then run the
parallel external-face traversal from W. -/
def walkUp (g : GState) (i j : Nat) (fuel : Nat) : GState :=
  let w := (g.arc j).neighbor
  let g1 := updV g w (fun r => { r with pertinentAdjacencyInfo := some j })
  walkUpLoop fuel g1 i w w true false

/-- _EmbedBackEdgeToDescendant (graphEmbed.c lines 504-553): detach the
forward arc recorded in W's pertinentAdjacencyInfo from the parent copy's
fwdArcList, add it to the root vertex's adjacency list on RootSide, add its
twin to W's adjacency list on WPrevLink, point the twin at the root vertex,
and link the two endpoints on the external face. -/
def embedBackEdgeToDescendant (g : GState) (rootSide : Bool) (rootVertex w : Nat)
    (wPrevLink : Bool) : GState :=
  match (g.vrec w).pertinentAdjacencyInfo with
  | none => g
  | some fwdArc =>
    match (g.vrec (rootVertex - g.N)).parent with
    | none => g
    | some parentCopy =>
      let backArc := twinArc fwdArc
      let g1 :=
        if (g.vrec parentCopy).fwdArcList = some fwdArc then
          let ga := updV g parentCopy
            (fun r => { r with fwdArcList := (g.arc fwdArc).next })
          if (ga.vrec parentCopy).fwdArcList = some fwdArc then
            updV ga parentCopy (fun r => { r with fwdArcList := none })
          else ga
        else g
      let g2 := setALinkO g1 ((g1.arc fwdArc).prev) false ((g1.arc fwdArc).next)
      let g3 := setALinkO g2 ((g2.arc fwdArc).next) true ((g2.arc fwdArc).prev)
      let g4 := setALink g3 fwdArc (!rootSide) none
      let g5 := setALink g4 fwdArc rootSide (getVArc g4 rootVertex rootSide)
      let g6 := setALinkO g5 (getVArc g5 rootVertex rootSide) (!rootSide) (some fwdArc)
      let g7 := setVArc g6 rootVertex rootSide (some fwdArc)
      let g8 := setALink g7 backArc (!wPrevLink) none
      let g9 := setALink g8 backArc wPrevLink (getVArc g8 w wPrevLink)
      let g10 := setALinkO g9 (getVArc g9 w wPrevLink) (!wPrevLink) (some backArc)
      let g11 := setVArc g10 w wPrevLink (some backArc)
      let g12 := updA g11 backArc (fun r => { r with neighbor := rootVertex })
      let g13 := setExtFace g12 rootVertex rootSide w
      setExtFace g13 w wPrevLink rootVertex

/-- The neighbor re-pointing loop of _MergeVertex (graphEmbed.c lines
676-683): every arc leading into R is redirected to W. -/
def mergeRepointLoop : GState → Option Nat → Nat → Nat → GState
  | g, none, _, _ => g
  | g, some _, 0, _ => g
  | g, some j, fuel + 1, w =>
      let g1 := updA g (twinArc j) (fun r => { r with neighbor := w })
      mergeRepointLoop g1 ((g1.arc j).next) fuel w

/-- _MergeVertex (graphEmbed.c lines 666-720): redirect R's incoming arcs to
W, splice R's adjacency list into W's at WPrevLink, and clear R's record. -/
def mergeVertex (g : GState) (w : Nat) (wPrevLink : Bool) (r : Nat) (fuel : Nat) : GState :=
  let g1 := mergeRepointLoop g ((g.vrec r).firstArc) fuel w
  let eW := getVArc g1 w wPrevLink
  let eR := getVArc g1 r (!wPrevLink)
  let eExt := getVArc g1 r wPrevLink
  let g2 :=
    match eW with
    | some _ =>
        let ga := setALinkO g1 eW (!wPrevLink) eR
        let gb := setALinkO ga eR wPrevLink eW
        let gc := setVArc gb w wPrevLink eExt
        setALinkO gc eExt (!wPrevLink) none
    | none =>
        let ga := setVArc g1 w (!wPrevLink) eR
        let gb := setALinkO ga eR wPrevLink none
        let gc := setVArc gb w wPrevLink eExt
        setALinkO gc eExt (!wPrevLink) none
  updV g2 r (fun _ => initVertexRec)

/-- The scan after a bicomp flip in _MergeBicomps (graphEmbed.c lines
775-792): find the tree-child arc in the adjacency list and xor its
inversion flag. -/
def xorChildScan : GState → Option Nat → Nat → GState
  | g, none, _ => g
  | g, some _, 0 => g
  | g, some j, fuel + 1 =>
      if (g.arc j).etype = .child then
        updA g j (fun r => { r with inverted := !r.inverted })
      else xorChildScan g ((g.arc j).next) fuel

/-- The flip step of one _MergeBicomps iteration (graphEmbed.c lines
768-793): when the path entering Z opposes the path exiting R, set Rout to
1 XOR ZPrevLink, invert R if its adjacency list has more than one arc, and
xor the inversion flag on R's tree-child arc. -/
def mergeFlip (g : GState) (zPrevLink : Bool) (r : Nat) (rout : Bool) (fuel : Nat) :
    GState × Bool :=
  if zPrevLink = rout then
    let rout' := !zPrevLink
    let g1 := if (g.vrec r).firstArc ≠ (g.vrec r).lastArc then invertVertex g r fuel else g
    let g2 := xorChildScan g1 ((g1.vrec r).firstArc) fuel
    (g2, rout')
  else (g, rout)

/-- One iteration of _MergeBicomps (graphEmbed.c lines 745-822) for the
popped pair (Z, ZPrevLink), (R, Rout): update external face corners at Z,
flip R if needed, remove R - N from Z's pertinent bicomp and separated child
lists, and merge R into Z. -/
def mergeBicompsIter (g : GState) (z : Nat) (zPrevLink : Bool) (r : Nat) (rout : Bool)
    (fuel : Nat) : GState :=
  let extFaceVertex := getExtFace g r (!rout)
  let g1 := setExtFace g z zPrevLink extFaceVertex
  let g2 :=
    if getExtFace g1 extFaceVertex false = getExtFace g1 extFaceVertex true then
      setExtFace g1 extFaceVertex (xor rout (g1.vrec extFaceVertex).extFaceInversionFlag) z
    else
      setExtFace g1 extFaceVertex
        (if getExtFace g1 extFaceVertex false = r then false else true) z
  let g3 := (mergeFlip g2 zPrevLink r rout fuel).1
  let rootChild := r - g3.N
  let g4 := updV g3 z (fun rr =>
    { rr with pertinentBicompList := LCDelete rr.pertinentBicompList rootChild })
  let g5 := updV g4 z (fun rr =>
    { rr with separatedDFSChildList := LCDelete rr.separatedDFSChildList rootChild })
  mergeVertex g5 z zPrevLink r fuel

/-- The stack-draining loop of _MergeBicomps: each round pops the pair
(R, Rout) then (Z, ZPrevLink) pushed by the Walkdown. -/
def mergeBicompsAux : List (Nat × Bool) → GState → Nat → GState
  | [], g, _ => g
  | (r, rout) :: (z, zPL) :: rest, g, fuel =>
      mergeBicompsAux rest (mergeBicompsIter g z zPL r rout fuel) fuel
  | _ :: _, g, _ => g

/-- _MergeBicomps (graphEmbed.c lines 737-826): merge all bicomps recorded
on the reusable stack; the core version always succeeds (returns OK). -/
def mergeBicomps (g : GState) (fuel : Nat) : GState :=
  mergeBicompsAux g.stack { g with stack := [] } fuel

/-- _HandleBlockedDescendantBicomp (graphEmbed.c lines 1000-1004): the core
handler pushes the blocked bicomp root with link 0 and reports
NONEMBEDDABLE. -/
def handleBlockedDescendantBicomp (g : GState) (r : Nat) : GState × RES :=
  (pushStack g r false, .NONEMBEDDABLE)

/-- _HandleInactiveVertex (graphEmbed.c lines 1010-1017): advance W along
the external face away from the link used to enter it. -/
def handleInactiveVertex (g : GState) (w : Nat) (wPrevLink : Bool) : Nat × Bool :=
  let x := getExtFace g w (!wPrevLink)
  let wPrevLink' := if getExtFace g x false = w then false else true
  (x, wPrevLink')

/-- Outcome of one iteration of the Walkdown's inner vertex loop. -/
inductive WDStepOut where
  | next (g : GState) (w : Nat) (wPrevLink : Bool)
  | stop (g : GState)
  | ret (g : GState) (rv : RES)

/-- The state carried by a Walkdown inner-loop outcome. -/
def WDStepOut.state : WDStepOut → GState
  | .next g _ _ => g
  | .stop g => g
  | .ret g _ => g

/-- The back-edge block of the Walkdown's inner loop (graphEmbed.c lines
1148-1166): when W is marked with an unembedded back edge, merge the bicomps
stacked so far (if any), embed the back edge from the root vertex to W, and
clear W's pertinentAdjacencyInfo. -/
def walkDownStepEmbed (g : GState) (rootSide : Bool) (rootVertex w : Nat)
    (wPrevLink : Bool) (fuel : Nat) : GState :=
  if (g.vrec w).pertinentAdjacencyInfo ≠ none then
    let ga := if g.stack ≠ [] then mergeBicomps g fuel else g
    let gb := embedBackEdgeToDescendant ga rootSide rootVertex w wPrevLink
    updV gb w (fun r => { r with pertinentAdjacencyInfo := none })
  else g

/-- The body of the Walkdown's inner vertex loop (graphEmbed.c lines
1145-1258) at vertex W: embed a back edge if W is marked pertinent (merging
stacked bicomps first), then either descend into a pertinent child bicomp,
skip an inactive vertex, or stop at an externally active vertex. -/
def walkDownStep (g : GState) (i rootVertex : Nat) (rootSide : Bool) (w : Nat)
    (wPrevLink : Bool) (fuel : Nat) : WDStepOut :=
  let g1 := walkDownStepEmbed g rootSide rootVertex w wPrevLink fuel
  if (g1.vrec w).pertinentBicompList ≠ [] then
    let g2 := pushStack g1 w wPrevLink
    match (g2.vrec w).pertinentBicompList.head? with
    | none => .ret g2 .NOTOK
    | some c =>
      let r := c + g2.N
      let x := getExtFace g2 r false
      let xPrevLink := if getExtFace g2 x true = r then true else false
      let y := getExtFace g2 r true
      let yPrevLink := if getExtFace g2 y false = r then false else true
      let xPL := if x = y && (g2.vrec x).extFaceInversionFlag then false else xPrevLink
      let yPL := if x = y && (g2.vrec x).extFaceInversionFlag then true else yPrevLink
      if vas g2 x i = .internal then .next (pushStack g2 r false) x xPL
      else if vas g2 y i = .internal then .next (pushStack g2 r true) y yPL
      else if pertinentB g2 x then .next (pushStack g2 r false) x xPL
      else if pertinentB g2 y then .next (pushStack g2 r true) y yPL
      else
        let pr := handleBlockedDescendantBicomp g2 r
        .ret pr.1 pr.2
  else if vas g1 w i = .inactive then
    let p := handleInactiveVertex g1 w wPrevLink
    .next g1 p.1 p.2
  else .stop g1

/-- Outcome of a full side traversal of the Walkdown. -/
inductive WDLoop where
  | thru (g : GState) (w : Nat) (wPrevLink : Bool)
  | ret (g : GState) (rv : RES)
  | out

/-- The Walkdown's inner vertex loop (graphEmbed.c lines 1143-1259): iterate
`walkDownStep` until W returns to the root vertex, a stopping vertex is
reached, or an early return occurs. -/
def walkDownLoop : Nat → GState → Nat → Nat → Bool → Nat → Bool → WDLoop
  | 0, _, _, _, _, _, _ => .out
  | fuel + 1, g, i, rootVertex, rootSide, w, wPrevLink =>
    if w = rootVertex then .thru g w wPrevLink
    else
      match walkDownStep g i rootVertex rootSide w wPrevLink fuel with
      | .next g' w' wp' => walkDownLoop fuel g' i rootVertex rootSide w' wp'
      | .stop g' => .thru g' w wPrevLink
      | .ret g' rv => .ret g' rv

/-- Entry computation of a Walkdown side (graphEmbed.c lines 1108-1141):
the first vertex W on the side and the link leading back to the root;
`none` encodes the NOTOK sanity failure. -/
def walkDownEntry (g : GState) (rootVertex : Nat) (rootSide : Bool) : Option (Nat × Bool) :=
  let w := getExtFace g rootVertex rootSide
  if getExtFace g w false = getExtFace g w true then some (w, !rootSide)
  else
    let wPrevLink := if getExtFace g w false = rootVertex then false else true
    if getExtFace g w wPrevLink ≠ rootVertex then none else some (w, wPrevLink)

/-- The per-side epilogue of the Walkdown (graphEmbed.c lines 1261-1288):
unconditionally short-circuit the external face from the root to the final
vertex W of the side, then record or clear W's inversion flag for the
two-vertex-bicomp case. -/
def sideFinish (g : GState) (rootVertex : Nat) (rootSide : Bool) (w : Nat)
    (wPrevLink : Bool) : GState :=
  let g1 := setExtFace g rootVertex rootSide w
  let g2 := setExtFace g1 w wPrevLink rootVertex
  if getExtFace g2 w false = getExtFace g2 w true && wPrevLink = rootSide then
    updV g2 w (fun r => { r with extFaceInversionFlag := true })
  else
    updV g2 w (fun r => { r with extFaceInversionFlag := false })

/-- _WalkDown (graphEmbed.c lines 1093-1298): clear the stack, walk external
face side 0 and, unless side 0 came back around to the root, side 1; each
completed side is closed with `sideFinish`. -/
def walkDown (g : GState) (i rootVertex : Nat) (fuel : Nat) : RES × GState :=
  let g0 : GState := { g with stack := [] }
  match walkDownEntry g0 rootVertex false with
  | none => (.NOTOK, g0)
  | some (w0, wp0) =>
    match walkDownLoop fuel g0 i rootVertex false w0 wp0 with
    | .out => (.NOTOK, g0)
    | .ret g' rv => (rv, g')
    | .thru g' w wp =>
      let g2 := sideFinish g' rootVertex false w wp
      if w = rootVertex then (.OK, g2)
      else
        match walkDownEntry g2 rootVertex true with
        | none => (.NOTOK, g2)
        | some (w1, wp1) =>
          match walkDownLoop fuel g2 i rootVertex true w1 wp1 with
          | .out => (.NOTOK, g2)
          | .ret g3 rv => (rv, g3)
          | .thru g3 w' wp' => (.OK, sideFinish g3 rootVertex true w' wp')

/-- The arc scan of the DFS in _EmbeddingInitialize (graphEmbed.c lines
184-233): push an edge for each unvisited neighbor, and run the back-edge
processing for each visited non-parent neighbor. -/
def dfsScanArcs : Nat → GState → Nat → Option Nat → List (Option Nat × Option Nat) →
    GState × List (Option Nat × Option Nat)
  | 0, g, _, _, stk => (g, stk)
  | _, g, _, none, stk => (g, stk)
  | fuel + 1, g, u, some j, stk =>
      if !(g.vrec ((g.arc j).neighbor)).visited then
        dfsScanArcs fuel g u ((g.arc j).next) ((some u, some j) :: stk)
      else if (g.arc j).etype ≠ .parentT then
        let g' := backEdgeStep g u j
        dfsScanArcs fuel g' u ((g'.arc j).next) stk
      else dfsScanArcs fuel g u ((g.arc j).next) stk

/-- The stack-driven DFS loop of _EmbeddingInitialize (graphEmbed.c lines
140-235): pop (uparent, e), visit the opposing endpoint if new, type the
tree edge, record the child, park the tree arc in the root copy, and scan
the arcs. -/
def dfsLoop : Nat → GState → Nat → Nat → List (Option Nat × Option Nat) → GState × Nat
  | 0, g, _, dfi, _ => (g, dfi)
  | _, g, _, dfi, [] => (g, dfi)
  | fuel + 1, g, i, dfi, (uparent, e) :: rest =>
      let u := match uparent with
        | none => i
        | some _ => match e with | some e' => (g.arc e').neighbor | none => i
      if (g.vrec u).visited then dfsLoop fuel g i dfi rest
      else
        let g1 := updV g u (fun r => { r with visited := true, index := dfi, parent := uparent })
        let g2 := match uparent, e with
          | some up, some e' =>
              let ga := updA g1 e' (fun r => { r with etype := .child })
              let gb := updA ga (twinArc e') (fun r => { r with etype := .parentT })
              let gc := updV gb up (fun r =>
                { r with sortedDFSChildList := LCAppend r.sortedDFSChildList ((gb.vrec u).index) })
              let rr := (gc.vrec u).index + gc.N
              let gd := updV gc rr (fun r => { r with firstArc := some e' })
              updV gd rr (fun r => { r with lastArc := some e' })
          | _, _ => g1
        let pr := dfsScanArcs fuel g2 u ((g2.vrec u).firstArc) rest
        dfsLoop fuel pr.1 i (dfi + 1) pr.2

/-- The outer component loop of the DFS (graphEmbed.c lines 131-236):
advance I over the vertices, starting a DFS at each not-yet-numbered one,
until all N vertices are numbered. -/
def dfsOuter : Nat → GState → Nat → Nat → GState
  | 0, g, _, _ => g
  | fuel + 1, g, i, dfi =>
      if dfi < g.N then
        if (g.vrec i).parent ≠ none then dfsOuter fuel g (i + 1) dfi
        else
          let pr := dfsLoop fuel g i dfi [(none, none)]
          dfsOuter fuel pr.1 (i + 1) pr.2
      else g

/-- _ClearVertexVisitedFlags, modelled from the spec: reset the visited flag
of every vertex. -/
def clearVertexVisitedFlags (g : GState) : GState :=
  { g with vrec := fun v => { g.vrec v with visited := false } }

/-- gp_SortVertices, modelled from the spec: stable reordering of the
primary vertices into DFI order; vertex positions stored in arc neighbor
fields and parent fields are translated to the new positions. -/
def sortVertices (g : GState) : Option GState :=
  some { g with
    vrec := fun p =>
      if p < g.N then
        match (List.range g.N).find? (fun v => (g.vrec v).index = p) with
        | some v =>
            let r := g.vrec v
            { r with parent := r.parent.map (fun q => (g.vrec q).index) }
        | none => g.vrec p
      else g.vrec p,
    arc := fun a =>
      let r := g.arc a
      if r.neighbor < g.N then { r with neighbor := (g.vrec r.neighbor).index } else r }

/-- Task (7) of _EmbeddingInitialize (graphEmbed.c lines 272-302): embed
each tree edge as a singleton bicomp between the child and the root copy of
its parent, and initialize the degenerate external face. -/
def dfsTreeEmbedSetup (g : GState) : GState :=
  (List.range g.N).foldl
    (fun g1 i =>
      let r := i + g1.N
      if (g1.vrec i).parent = none then
        updV g1 i (fun rr => { rr with firstArc := none, lastArc := none })
      else
        match (g1.vrec r).firstArc with
        | none => g1
        | some j =>
            let ga := updA g1 j (fun a => { a with prev := none, next := none })
            let jTwin := twinArc j
            let gb := updA ga jTwin (fun a => { a with neighbor := r })
            let gc := updV gb i (fun rr => { rr with firstArc := some jTwin, lastArc := some jTwin })
            let gd := updA gc jTwin (fun a => { a with prev := none, next := none })
            let ge := setExtFace gd r false i
            let gf := setExtFace ge r true i
            let gg := setExtFace gf i false r
            setExtFace gg i true r)
    g

/-- _EmbeddingInitialize (graphEmbed.c lines 97-312): check the reusable
stack capacity against 2 * arcCapacity, clear the visited flags, run the
DFS, sort the vertices by DFI, compute the lowpoints, and embed the tree
edges as singleton bicomps.  `none` is the NOTOK (internal) result. -/
def embeddingInitialize (g : GState) (fuel : Nat) : Option GState :=
  if g.stackCapacity < 2 * g.arcCapacity then none
  else
    let g1 := { clearVertexVisitedFlags g with stack := [] }
    let g2 := dfsOuter fuel g1 0 0
    match sortVertices g2 with
    | none => none
    | some g3 =>
        let g4 := lowpointLoop g3 g3.N
        some (dfsTreeEmbedSetup g4)

/-- _CreateSortedSeparatedDFSChildLists (graphEmbed.c lines 331-381): bucket
sort the vertices by lowpoint, then append each vertex to the separated DFS
child list of its parent in bucket order. -/
def createSortedSeparatedDFSChildLists (g : GState) : GState :=
  let buckets : Nat → List Nat :=
    (List.range g.N).foldl
      (fun b i =>
        let l := (g.vrec i).lowpoint
        fun x => if x = l then LCAppend (b l) i else b x)
      (fun _ => [])
  (List.range g.N).foldl
    (fun g1 i =>
      (buckets i).foldl
        (fun g2 c =>
          match (g2.vrec c).parent with
          | some p =>
              if p ≠ c then
                updV g2 p (fun r =>
                  { r with separatedDFSChildList := LCAppend r.separatedDFSChildList c })
              else g2
          | none => g2)
        g1)
    g

/-- The child-pushing arc scan of _OrientVerticesInBicomp (graphEmbed.c
lines 1648-1661). -/
def orientScan : Nat → GState → Option Nat → Bool → Bool → List (Nat × Bool) →
    GState × List (Nat × Bool)
  | 0, g, _, _, _, acc => (g, acc)
  | _, g, none, _, _, acc => (g, acc)
  | fuel + 1, g, some j, inverted, ps, acc =>
      if (g.arc j).etype = .child then
        let acc' := ((g.arc j).neighbor, xor inverted (g.arc j).inverted) :: acc
        let g' := if ps then g else updA g j (fun r => { r with inverted := false })
        orientScan fuel g' ((g'.arc j).next) inverted ps acc'
      else orientScan fuel g ((g.arc j).next) inverted ps acc

/-- The stack loop of _OrientVerticesInBicomp (graphEmbed.c lines
1636-1662). -/
def orientStack : Nat → GState → List (Nat × Bool) → Bool → GState
  | 0, g, _, _ => g
  | _, g, [], _ => g
  | fuel + 1, g, (v, inverted) :: rest, ps =>
      let g1 := if inverted then invertVertex g v fuel else g
      let pr := orientScan fuel g1 ((g1.vrec v).firstArc) inverted ps []
      orientStack fuel pr.1 (pr.2 ++ rest) ps

/-- _OrientVerticesInBicomp (graphEmbed.c lines 1631-1664). -/
def orientVerticesInBicomp (g : GState) (bicompRoot : Nat) (preserveSigns : Bool)
    (fuel : Nat) : GState :=
  orientStack fuel g [(bicompRoot, false)] preserveSigns

/-- _OrientVerticesInEmbedding (graphEmbed.c lines 1578-1597). -/
def orientVerticesInEmbedding (g : GState) (fuel : Nat) : GState :=
  (List.range g.N).foldl
    (fun g1 k =>
      let r := g1.N + k
      if (g1.vrec r).firstArc.isSome then orientVerticesInBicomp g1 r false fuel else g1)
    g

/-- _JoinBicomps (graphEmbed.c lines 1676-1685). -/
def joinBicomps (g : GState) (fuel : Nat) : GState :=
  (List.range g.N).foldl
    (fun g1 k =>
      let r := g1.N + k
      if (g1.vrec r).firstArc.isSome then
        match (g1.vrec (r - g1.N)).parent with
        | some p => mergeVertex g1 p false r fuel
        | none => g1
      else g1)
    g

/-- The PLANAR embed flag constant, modelled from the spec. -/
def EMBEDFLAGS_PLANAR : Nat := 1

/-- The OUTERPLANAR embed flag constant, modelled from the spec. -/
def EMBEDFLAGS_OUTERPLANAR : Nat := 2

/-- _IsolateKuratowskiSubgraph, modelled from the spec: an external
collaborator of the core that isolates an obstruction in the frozen engine
state; its success is reported as OK. -/
def isolateKuratowskiSubgraph (g : GState) (i : Int) : RES := .OK

/-- _IsolateOuterplanarObstruction, modelled from the spec, as above. -/
def isolateOuterplanarObstruction (g : GState) (i : Int) : RES := .OK

/-- _EmbedPostprocess (graphEmbed.c lines 1532-1565): on OK orient the
embedding and join the bicomps; on NONEMBEDDABLE dispatch to the configured
obstruction isolator. -/
def embedPostprocess (g : GState) (i : Int) (rv : RES) (fuel : Nat) : RES × GState :=
  if rv = .OK then
    let g1 := orientVerticesInEmbedding g fuel
    (.OK, joinBicomps g1 fuel)
  else if rv = .NONEMBEDDABLE then
    if g.embedFlags = EMBEDFLAGS_PLANAR then
      if isolateKuratowskiSubgraph g i = .OK then (.NONEMBEDDABLE, g) else (.NOTOK, g)
    else if g.embedFlags = EMBEDFLAGS_OUTERPLANAR then
      if isolateOuterplanarObstruction g i = .OK then (.NONEMBEDDABLE, g) else (.NOTOK, g)
    else (.NONEMBEDDABLE, g)
  else (rv, g)

/-- The Walkup phase of one embedder iteration (graphEmbed.c lines
1392-1400): call _WalkUp for each arc of the circular fwdArcList of I. -/
def walkUpPhase : Nat → GState → Nat → Option Nat → GState
  | 0, g, _, _ => g
  | _, g, _, none => g
  | fuel + 1, g, i, some j =>
      let g' := walkUp g i j fuel
      let jn := (g'.arc j).next
      let jn' := if jn = (g'.vrec i).fwdArcList then none else jn
      walkUpPhase fuel g' i jn'

/-- The Walkdown phase of one embedder iteration (graphEmbed.c lines
1408-1437): for each DFS child with a pertinent bicomp list, run the
Walkdown; NONEMBEDDABLE breaks the loop, NOTOK aborts (`none`). -/
def walkDownPhase : Nat → GState → Nat → Option Nat → Option (GState × RES)
  | 0, g, _, _ => some (g, .OK)
  | _, g, _, none => some (g, .OK)
  | fuel + 1, g, i, some child =>
      if (g.vrec child).pertinentBicompList ≠ [] then
        match walkDown g i (child + g.N) fuel with
        | (.OK, g') => walkDownPhase fuel g' i (LCGetNext ((g'.vrec i).sortedDFSChildList) child)
        | (.NONEMBEDDABLE, g') => some (g', .NONEMBEDDABLE)
        | (.NOTOK, _) => none
      else walkDownPhase fuel g i (LCGetNext ((g.vrec i).sortedDFSChildList) child)

/-- One embedder iteration for vertex I before the blocked-iteration check
(graphEmbed.c lines 1383-1441): reset visitedInfo, run the Walkups over
fwdArcList(I), run the Walkdowns over the sorted DFS children, and clear
I's pertinent bicomp list; `none` is the NOTOK abort. -/
def embedStepCore (g : GState) (i : Nat) (fuel : Nat) : Option (GState × RES) :=
  let g1 := updV g i (fun r => { r with visitedInfo := g.N })
  let g2 := walkUpPhase fuel g1 i ((g1.vrec i).fwdArcList)
  match walkDownPhase fuel g2 i ((g2.vrec i).sortedDFSChildList.head?) with
  | none => none
  | some (g3, rv) =>
      some (updV g3 i (fun r => { r with pertinentBicompList := [] }), rv)

/-- _HandleBlockedEmbedIteration (graphEmbed.c lines 1498-1501): the core
implementation unconditionally reports NONEMBEDDABLE. -/
def handleBlockedEmbedIteration (g : GState) (i : Nat) : RES := .NONEMBEDDABLE

/-- Outcome of one full embedder iteration: continue, break the descending
loop with a result, or abort with NOTOK. -/
inductive StepRes where
  | ok (g : GState) (rv : RES)
  | brk (g : GState) (rv : RES)
  | err

/-- One full embedder iteration for vertex I (graphEmbed.c lines 1381-1453),
including the end-of-iteration blocked check: when fwdArcList(I) is
non-empty or the Walkdown result was NONEMBEDDABLE, the blocked-iteration
handler decides whether the descending loop breaks. -/
def embedStep (g : GState) (i : Nat) (fuel : Nat) : StepRes :=
  match embedStepCore g i fuel with
  | none => .err
  | some (g1, rv) =>
      if (g1.vrec i).fwdArcList ≠ none ∨ rv = .NONEMBEDDABLE then
        let rv' := handleBlockedEmbedIteration g1 i
        if rv' ≠ .OK then .brk g1 rv' else .ok g1 rv'
      else .ok g1 rv

/-- The descending loop over I = N-1 ... 0 of gp_Embed (graphEmbed.c lines
1381-1454); the result carries the final state, the last value of I (as in
C, -1 after a completed loop) and the final RetVal. -/
def embedLoop : GState → Nat → Nat → RES → Option (GState × Int × RES)
  | g, _, 0, rv => some (g, -1, rv)
  | g, fuel, k + 1, _ =>
      match embedStep g k fuel with
      | .err => none
      | .brk g' rv' => some (g', (k : Int), rv')
      | .ok g' rv' => embedLoop g' fuel k rv'

/-- The edge-addition main loop of gp_Embed followed by the postprocessing
dispatch (graphEmbed.c lines 1381-1461). -/
def embedMain (g : GState) (fuel : Nat) : RES :=
  match embedLoop g fuel g.N .OK with
  | none => .NOTOK
  | some (g', i, rv) => (embedPostprocess g' i rv fuel).1

/-- gp_Embed (graphEmbed.c lines 1343-1462): NULL check, embedding
initialization, separated child list creation, the descending edge-addition
loop and the postprocessing step. -/
def gp_Embed (gOpt : Option GState) (embedFlags : Nat) (fuel : Nat) : RES :=
  match gOpt with
  | none => .NOTOK
  | some g =>
      let g1 := { g with embedFlags := embedFlags }
      match embeddingInitialize g1 fuel with
      | none => .NOTOK
      | some g2 => embedMain (createSortedSeparatedDFSChildLists g2) fuel

/-- A linked chain: starting from the optional index `o`, following `f`
visits exactly the elements of `l` in order and then reaches the end marker. -/
def linkChain (f : Nat → Option Nat) : Option Nat → List Nat → Prop
  | o, [] => o = none
  | o, a :: rest => o = some a ∧ linkChain f (f a) rest

instance linkChainDec (f : Nat → Option Nat) :
    (o : Option Nat) → (l : List Nat) → Decidable (linkChain f o l)
  | o, [] => decidable_of_iff (o = none) Iff.rfl
  | o, a :: rest =>
      have : Decidable (linkChain f (f a) rest) := linkChainDec f (f a) rest
      decidable_of_iff (o = some a ∧ linkChain f (f a) rest) Iff.rfl

/-- A path chain: from vertex `cur`, following `f` visits exactly the
elements of `l` in order and then arrives at `tgt`. -/
def pathChain (f : Nat → Option Nat) : Nat → List Nat → Nat → Prop
  | cur, [], tgt => f cur = some tgt
  | cur, b :: rest, tgt => f cur = some b ∧ pathChain f b rest tgt

instance pathChainDec (f : Nat → Option Nat) :
    (cur : Nat) → (l : List Nat) → (tgt : Nat) → Decidable (pathChain f cur l tgt)
  | cur, [], tgt => decidable_of_iff (f cur = some tgt) Iff.rfl
  | cur, b :: rest, tgt =>
      have : Decidable (pathChain f b rest tgt) := pathChainDec f b rest tgt
      decidable_of_iff (f cur = some b ∧ pathChain f b rest tgt) Iff.rfl

/-- The next-link function of a state. -/
def nextF (g : GState) : Nat → Option Nat := fun a => (g.arc a).next

/-- The prev-link function of a state. -/
def prevF (g : GState) : Nat → Option Nat := fun a => (g.arc a).prev

/-- Well-formedness of a circular doubly linked arc list `a :: rest` with
head `a`: the next links cycle forward through the list and the prev links
cycle backward. -/
def circOk (g : GState) : List Nat → Prop
  | [] => True
  | a :: rest => pathChain (nextF g) a rest a ∧ pathChain (prevF g) a rest.reverse a

instance circOkDec (g : GState) : (l : List Nat) → Decidable (circOk g l)
  | [] => .isTrue trivial
  | a :: rest =>
      decidable_of_iff (pathChain (nextF g) a rest a ∧ pathChain (prevF g) a rest.reverse a)
        Iff.rfl

/-- The DFI of the descendant endpoint of a forward arc. -/
def descendantDFI (g : GState) (a : Nat) : Nat := (g.vrec ((g.arc a).neighbor)).index

/-- A list is partitioned for step I by the lowpoint map `lp` when all its
internally active entries (lowpoint at least I) come before all externally
active entries (lowpoint below I): iteration meets the internally active
ones first. -/
def partitioned (lp : Nat → Nat) (i : Nat) (l : List Nat) : Prop :=
  ∃ l1 l2, l = l1 ++ l2 ∧ (∀ x ∈ l1, i ≤ lp x) ∧ (∀ x ∈ l2, lp x < i)

/-- A default arc record for building concrete states. -/
def baseArc : ARec :=
  { neighbor := 0, next := none, prev := none, etype := .undefinedT, inverted := false }

/-- Build a concrete state from lists of vertex and arc records. -/
def listG (n : Nat) (vs : List VRec) (arcs : List ARec) : GState :=
  { N := n,
    vrec := fun v => vs.getD v initVertexRec,
    arc := fun a => arcs.getD a baseArc,
    stack := [], stackCapacity := 100, arcCapacity := 10, embedFlags := 1 }

/-- Concrete state for the lowpoint witness: a DFS path 0-1-2 with a back
edge context recorded in the leastAncestor values. -/
def cexC1 : GState :=
  listG 3
    [ { initVertexRec with sortedDFSChildList := [1], leastAncestor := 0, lowpoint := 90 },
      { initVertexRec with sortedDFSChildList := [2], leastAncestor := 1, lowpoint := 91 },
      { initVertexRec with sortedDFSChildList := [], leastAncestor := 0, lowpoint := 92 } ]
    []

/-- Concrete state for the forward-arc insertion: vertex 2 (DFI 2) scans its
back edge arc 3 to the ancestor vertex 0 (DFI 0); the ancestor's adjacency
list holds the twin arc 2, and its circular fwdArcList already holds the
forward arc 6, whose descendant vertex 1 has the smaller DFI 1. -/
def cexC2 : GState :=
  listG 3
    [ { initVertexRec with
        index := 0, visited := true, leastAncestor := 0,
        fwdArcList := some 6, firstArc := some 2, lastArc := some 2 },
      { initVertexRec with
        index := 1, visited := true, leastAncestor := 0 },
      { initVertexRec with
        index := 2, visited := true, leastAncestor := 2,
        firstArc := some 3, lastArc := some 3 } ]
    [ baseArc, baseArc,
      { baseArc with neighbor := 2 },
      { baseArc with neighbor := 0 },
      baseArc, baseArc,
      { baseArc with neighbor := 1, next := some 6, prev := some 6, etype := .forward },
      { baseArc with neighbor := 0, etype := .back } ]

/-- Concrete state for the vertex inversion witness: vertex 0 with the
two-arc adjacency list [2, 3] and distinct external face neighbors. -/
def cexC7 : GState :=
  listG 1
    [ { initVertexRec with
        firstArc := some 2, lastArc := some 3,
        extFace0 := 5, extFace1 := 7 } ]
    [ baseArc, baseArc,
      { baseArc with neighbor := 3, next := some 3, prev := none },
      { baseArc with neighbor := 4, next := none, prev := some 2, etype := .child } ]

/-- Concrete state for the merge flip witness: root copy vertex 2 (N = 2)
with adjacency list [4, 6] whose unique tree-child arc is 4. -/
def cexC5 : GState :=
  { (listG 2
      [ initVertexRec, initVertexRec,
        { initVertexRec with firstArc := some 4, lastArc := some 6 } ]
      [ baseArc, baseArc, baseArc, baseArc,
        { baseArc with neighbor := 0, next := some 6, prev := none, etype := .child },
        baseArc,
        { baseArc with neighbor := 1, next := none, prev := some 4, etype := .back } ])
    with N := 2 }

/-- Concrete state for the Walkdown short-circuit witness: a root copy 2
(N = 2) whose external face links point at vertex 1 and back. -/
def cexC6 : GState :=
  { (listG 2
      [ initVertexRec,
        { initVertexRec with extFace0 := 2, extFace1 := 2 },
        { initVertexRec with extFace0 := 1, extFace1 := 1 } ]
      [])
    with N := 2 }

/-- Concrete state for the pertinentAdjacencyInfo witness: step vertex 1,
root copy 3 = 1 + N (N = 2) over parent copy 1, descendant w = 0 marked
with the forward arc 4; the root copy's adjacency holds arc 6 and w's
adjacency holds arc 7. -/
def cexC4 : GState :=
  { (listG 2
      [ { initVertexRec with
          pertinentAdjacencyInfo := some 4,
          firstArc := some 7, lastArc := some 7, leastAncestor := 9, lowpoint := 9 },
        { initVertexRec with
          parent := some 1, fwdArcList := some 4,
          leastAncestor := 9, lowpoint := 9 },
        initVertexRec,
        { initVertexRec with parent := some 1, firstArc := some 6, lastArc := some 6 } ]
      [ baseArc, baseArc, baseArc, baseArc,
        { baseArc with neighbor := 0, next := some 4, prev := some 4, etype := .forward },
        { baseArc with neighbor := 1, etype := .back },
        { baseArc with neighbor := 0, etype := .child },
        { baseArc with neighbor := 3, etype := .parentT } ])
    with N := 2 }

/-- Concrete state for the blocked-iteration witness: a single vertex 0
whose fwdArcList holds the circular singleton arc 4 pointing back at vertex
0, which no Walkdown can embed, so the forward arc list stays non-empty. -/
def cexC8 : GState :=
  listG 1
    [ { initVertexRec with fwdArcList := some 4 } ]
    [ baseArc, baseArc, baseArc, baseArc,
      { baseArc with neighbor := 0, next := some 4, prev := some 4, etype := .forward } ]

/-- The state produced by the embedder iteration on `cexC8` at I = 0. -/
def cexC8g1 : GState := ((embedStepCore cexC8 0 3).getD (cexC8, .OK)).1

/-- The Walkdown result of that iteration. -/
def cexC8rv : RES := ((embedStepCore cexC8 0 3).getD (cexC8, .OK)).2

/-- Concrete state for the stack-capacity witness: the reusable stack is
smaller than twice the arc capacity. -/
def cexC9 : GState :=
  { listG 1 [] [] with stackCapacity := 3, arcCapacity := 2 }

/-- Concrete state for the Walkup ordering witness: N = 2, root copy 3 over
the DFS child 1 whose parent copy is vertex 0; vertex 0's pertinent bicomp
list currently holds the externally active child 5 (lowpoint 0 < 5). -/
def cexC3 : GState :=
  { (listG 2
      [ { initVertexRec with pertinentBicompList := [5], lowpoint := 4 },
        { initVertexRec with parent := some 0, lowpoint := 7 } ]
      []) with N := 2 }

@[simp] theorem updV_vrec (g : GState) (v : Nat) (f : VRec → VRec) (x : Nat) :
    (updV g v f).vrec x = if x = v then f (g.vrec v) else g.vrec x := rfl

@[simp] theorem updV_arc (g : GState) (v : Nat) (f : VRec → VRec) :
    (updV g v f).arc = g.arc := rfl

@[simp] theorem updV_N (g : GState) (v : Nat) (f : VRec → VRec) :
    (updV g v f).N = g.N := rfl

@[simp] theorem updV_stack (g : GState) (v : Nat) (f : VRec → VRec) :
    (updV g v f).stack = g.stack := rfl

@[simp] theorem updA_arc (g : GState) (a : Nat) (f : ARec → ARec) (x : Nat) :
    (updA g a f).arc x = if x = a then f (g.arc a) else g.arc x := rfl

@[simp] theorem updA_vrec (g : GState) (a : Nat) (f : ARec → ARec) :
    (updA g a f).vrec = g.vrec := rfl

@[simp] theorem updA_N (g : GState) (a : Nat) (f : ARec → ARec) :
    (updA g a f).N = g.N := rfl

@[simp] theorem updA_stack (g : GState) (a : Nat) (f : ARec → ARec) :
    (updA g a f).stack = g.stack := rfl

@[simp] theorem pushStack_vrec (g : GState) (v : Nat) (lk : Bool) :
    (pushStack g v lk).vrec = g.vrec := rfl

@[simp] theorem pushStack_arc (g : GState) (v : Nat) (lk : Bool) :
    (pushStack g v lk).arc = g.arc := rfl

@[simp] theorem pushStack_N (g : GState) (v : Nat) (lk : Bool) :
    (pushStack g v lk).N = g.N := rfl

/-- C10: gp_Embed(theGraph, embedFlags) returns NOTOK (the INTERNAL result)
when theGraph is NULL, for every value of embedFlags; in the model the NULL
graph is `none`, and the result is produced without touching any graph
state. -/
theorem gp_Embed_null_graph (embedFlags fuel : Nat) :
    gp_Embed none embedFlags fuel = .NOTOK := rfl

/-- C9: _EmbeddingInitialize returns NOTOK (the INTERNAL result) before
performing the DFS whenever the reusable stack's capacity is below 2 times
the graph's arc capacity: the capacity test is the first statement of the
routine and short-circuits everything else, whatever the fuel. -/
theorem embeddingInitialize_stack_capacity (g : GState) (fuel : Nat)
    (h : g.stackCapacity < 2 * g.arcCapacity) :
    embeddingInitialize g fuel = none := by
  unfold embeddingInitialize
  rw [if_pos h]

theorem embeddingInitialize_stack_capacity_witness :
    cexC9.stackCapacity < 2 * cexC9.arcCapacity ∧ embeddingInitialize cexC9 5 = none :=
  ⟨by decide, embeddingInitialize_stack_capacity cexC9 5 (by decide)⟩

/-- C8: at the end of the embedder iteration for vertex I, if fwdArcList(I)
is non-empty or a Walkdown returned NONEMBEDDABLE, the blocked-iteration
handler runs; the core handler returns NONEMBEDDABLE unconditionally, the
descending loop over I breaks with that result, and NONEMBEDDABLE is passed
to the postprocessing step. -/
theorem gp_Embed_blocked_iteration :
    (∀ g i, handleBlockedEmbedIteration g i = .NONEMBEDDABLE) ∧
    (∀ (g : GState) (fuel k : Nat) (rv : RES) (g1 : GState) (rv1 : RES),
      embedStepCore g k fuel = some (g1, rv1) →
      ((g1.vrec k).fwdArcList ≠ none ∨ rv1 = .NONEMBEDDABLE) →
      embedLoop g fuel (k + 1) rv = some (g1, (k : Int), .NONEMBEDDABLE) ∧
      (g.N = k + 1 → embedMain g fuel = (embedPostprocess g1 (k : Int) .NONEMBEDDABLE fuel).1)) := by
  refine ⟨fun g i => rfl, ?_⟩
  intro g fuel k rv g1 rv1 hcore hcond
  have h1 : embedStep g k fuel =
      (if (g1.vrec k).fwdArcList ≠ none ∨ rv1 = RES.NONEMBEDDABLE then
         StepRes.brk g1 RES.NONEMBEDDABLE
       else StepRes.ok g1 rv1) := by
    unfold embedStep
    rw [hcore]
    rfl
  have hstep : embedStep g k fuel = .brk g1 .NONEMBEDDABLE := by
    rw [h1, if_pos hcond]
  have hloop : ∀ rv0 : RES, embedLoop g fuel (k + 1) rv0 = some (g1, (k : Int), .NONEMBEDDABLE) := by
    intro rv0
    unfold embedLoop
    rw [hstep]
  refine ⟨hloop rv, fun hN => ?_⟩
  unfold embedMain
  rw [hN, hloop .OK]

theorem gp_Embed_blocked_iteration_witness :
    embedLoop cexC8 3 1 .OK = some (cexC8g1, ((0 : Nat) : Int), .NONEMBEDDABLE) ∧
    embedMain cexC8 3 = (embedPostprocess cexC8g1 ((0 : Nat) : Int) .NONEMBEDDABLE 3).1 := by
  have h := gp_Embed_blocked_iteration.2 cexC8 3 0 .OK cexC8g1 cexC8rv rfl
    (Or.inl (by decide))
  exact ⟨h.1, h.2 rfl⟩

theorem linkChain_congr (f f' : Nat → Option Nat) (l : List Nat) :
    ∀ (o : Option Nat), (∀ b ∈ l, f' b = f b) → linkChain f o l → linkChain f' o l := by
  induction l with
  | nil => intro o _ h; exact h
  | cons a rest ih =>
      intro o hff h
      obtain ⟨h1, h2⟩ := h
      refine ⟨h1, ?_⟩
      rw [hff a (List.mem_cons_self a rest)]
      exact ih (f a) (fun b hb => hff b (List.mem_cons_of_mem a hb)) h2

theorem invertLoop_effect (l : List Nat) :
    ∀ (g : GState) (o : Option Nat) (fuel : Nat),
      linkChain (nextF g) o l → l.Nodup → l.length ≤ fuel →
      ((∀ a ∈ l, (invertLoop g o fuel).arc a =
         { g.arc a with next := (g.arc a).prev, prev := (g.arc a).next }) ∧
       (∀ a, a ∉ l → (invertLoop g o fuel).arc a = g.arc a) ∧
       (invertLoop g o fuel).vrec = g.vrec ∧
       (invertLoop g o fuel).N = g.N ∧
       (invertLoop g o fuel).stack = g.stack) := by
  induction l with
  | nil =>
      intro g o fuel hch _ _
      have ho : o = none := hch
      subst ho
      refine ⟨fun a ha => absurd ha (List.not_mem_nil a), fun a _ => ?_, ?_, ?_, ?_⟩ <;>
        cases fuel <;> rfl
  | cons a rest ih =>
      intro g o fuel hch hnd hfu
      obtain ⟨ho, hch'⟩ := hch
      subst ho
      obtain ⟨fu, rfl⟩ : ∃ f', fuel = f' + 1 := ⟨fuel - 1, by simp at hfu; omega⟩
      have hstep : invertLoop g (some a) (fu + 1) =
          invertLoop (updA g a (fun r => { r with next := r.prev, prev := (g.arc a).next }))
            ((g.arc a).next) fu := rfl
      set g' := updA g a (fun r => { r with next := r.prev, prev := (g.arc a).next }) with hg'
      have hanotin : a ∉ rest := (List.nodup_cons.mp hnd).1
      have hndr : rest.Nodup := (List.nodup_cons.mp hnd).2
      have harc' : ∀ b, b ≠ a → g'.arc b = g.arc b := by
        intro b hb; simp [hg', hb]
      have hch2 : linkChain (nextF g') ((g.arc a).next) rest := by
        refine linkChain_congr (nextF g) (nextF g') rest _ ?_ ?_
        · intro b hb
          have : b ≠ a := fun hba => hanotin (hba ▸ hb)
          simp [nextF, harc' b this]
        · exact hch'
      have hfu' : rest.length ≤ fu := by simp at hfu; omega
      obtain ⟨hin, hout, hvr, hN, hst⟩ := ih g' ((g.arc a).next) fu hch2 hndr hfu'
      rw [hstep]
      refine ⟨?_, ?_, ?_, ?_, ?_⟩
      · intro b hb
        rcases List.mem_cons.mp hb with rfl | hbr
        · rw [hout b hanotin]
          simp [hg']
        · rw [hin b hbr]
          have hbne : b ≠ a := fun hba => hanotin (hba ▸ hbr)
          rw [harc' b hbne]
      · intro b hbnotin
        have hbne : b ≠ a := fun hba => hbnotin (hba ▸ List.mem_cons_self a rest)
        have hbr : b ∉ rest := fun hr => hbnotin (List.mem_cons_of_mem a hr)
        rw [hout b hbr, harc' b hbne]
      · rw [hvr]; rfl
      · rw [hN]; rfl
      · rw [hst]; rfl

theorem invertVertex_effect (g : GState) (v : Nat) (l : List Nat) (fuel : Nat)
    (hch : linkChain (nextF g) ((g.vrec v).firstArc) l)
    (hnd : l.Nodup) (hfu : l.length ≤ fuel) :
    (∀ a ∈ l, (invertVertex g v fuel).arc a =
       { g.arc a with next := (g.arc a).prev, prev := (g.arc a).next }) ∧
    (∀ a, a ∉ l → (invertVertex g v fuel).arc a = g.arc a) ∧
    (invertVertex g v fuel).vrec v =
      { g.vrec v with firstArc := (g.vrec v).lastArc, lastArc := (g.vrec v).firstArc,
                      extFace0 := (g.vrec v).extFace1, extFace1 := (g.vrec v).extFace0 } ∧
    (∀ w, w ≠ v → (invertVertex g v fuel).vrec w = g.vrec w) := by
  obtain ⟨hin, hout, hvr, _, _⟩ :=
    invertLoop_effect l g ((g.vrec v).firstArc) fuel hch hnd hfu
  have harc : (invertVertex g v fuel).arc =
      (invertLoop g ((g.vrec v).firstArc) fuel).arc := rfl
  refine ⟨?_, ?_, ?_, ?_⟩
  · intro a ha; rw [harc, hin a ha]
  · intro a ha; rw [harc, hout a ha]
  · show (updV (updV (invertLoop g ((g.vrec v).firstArc) fuel) v
        (fun r => { r with firstArc := r.lastArc, lastArc := r.firstArc })) v
        (fun r => { r with extFace0 := r.extFace1, extFace1 := r.extFace0 })).vrec v = _
    simp [hvr]
  · intro w hw
    show (updV (updV (invertLoop g ((g.vrec v).firstArc) fuel) v
        (fun r => { r with firstArc := r.lastArc, lastArc := r.firstArc })) v
        (fun r => { r with extFace0 := r.extFace1, extFace1 := r.extFace0 })).vrec w = _
    simp [hw, hvr]

/-- C7: _InvertVertex(V) swaps the prev and next links of every arc in V's
adjacency list (the chain `l` from V's first arc), swaps V's first-arc and
last-arc indicators, and swaps V's extFace[0] with extFace[1], leaving every
other field of V, every other vertex, and every arc outside the list
unchanged. -/
theorem invertVertex_spec (g : GState) (v : Nat) (l : List Nat) (fuel : Nat)
    (hch : linkChain (nextF g) ((g.vrec v).firstArc) l)
    (hnd : l.Nodup) (hfu : l.length ≤ fuel) :
    (∀ a ∈ l, (invertVertex g v fuel).arc a =
       { g.arc a with next := (g.arc a).prev, prev := (g.arc a).next }) ∧
    (∀ a, a ∉ l → (invertVertex g v fuel).arc a = g.arc a) ∧
    (invertVertex g v fuel).vrec v =
      { g.vrec v with firstArc := (g.vrec v).lastArc, lastArc := (g.vrec v).firstArc,
                      extFace0 := (g.vrec v).extFace1, extFace1 := (g.vrec v).extFace0 } ∧
    (∀ w, w ≠ v → (invertVertex g v fuel).vrec w = g.vrec w) :=
  invertVertex_effect g v l fuel hch hnd hfu

theorem invertVertex_spec_witness :
    (invertVertex cexC7 0 5).arc 2 =
      { cexC7.arc 2 with next := (cexC7.arc 2).prev, prev := (cexC7.arc 2).next } ∧
    (invertVertex cexC7 0 5).arc 9 = cexC7.arc 9 ∧
    (invertVertex cexC7 0 5).vrec 0 =
      { cexC7.vrec 0 with firstArc := (cexC7.vrec 0).lastArc,
                          lastArc := (cexC7.vrec 0).firstArc,
                          extFace0 := (cexC7.vrec 0).extFace1,
                          extFace1 := (cexC7.vrec 0).extFace0 } := by
  have h := invertVertex_spec cexC7 0 [2, 3] 5 (by decide) (by decide) (by decide)
  exact ⟨h.1 2 (by simp), h.2.1 9 (by simp), h.2.2.1⟩

theorem xorChildScan_effect (l : List Nat) :
    ∀ (g : GState) (o : Option Nat) (fuel : Nat) (c : Nat),
      linkChain (nextF g) o l → c ∈ l → (g.arc c).etype = .child →
      (∀ a ∈ l, (g.arc a).etype = .child → a = c) → l.length ≤ fuel →
      ((xorChildScan g o fuel).arc c = { g.arc c with inverted := !(g.arc c).inverted } ∧
       (∀ a, a ≠ c → (xorChildScan g o fuel).arc a = g.arc a) ∧
       (xorChildScan g o fuel).vrec = g.vrec) := by
  induction l with
  | nil => intro g o fuel c _ hc; exact absurd hc (List.not_mem_nil c)
  | cons a rest ih =>
      intro g o fuel c hch hc hcc huniq hfu
      obtain ⟨ho, hch'⟩ := hch
      subst ho
      obtain ⟨fu, rfl⟩ : ∃ f', fuel = f' + 1 := ⟨fuel - 1, by simp at hfu; omega⟩
      by_cases hach : (g.arc a).etype = .child
      · have hac : a = c := huniq a (List.mem_cons_self a rest) hach
        subst hac
        have hstep : xorChildScan g (some a) (fu + 1) =
            updA g a (fun r => { r with inverted := !r.inverted }) := by
          simp only [xorChildScan]
          rw [if_pos hach]
        rw [hstep]
        refine ⟨by simp, fun b hb => by simp [hb], rfl⟩
      · have hac : a ≠ c := fun h => hach (h ▸ hcc)
        have hcr : c ∈ rest := by
          rcases List.mem_cons.mp hc with h | h
          · exact absurd h.symm hac
          · exact h
        have hstep : xorChildScan g (some a) (fu + 1) =
            xorChildScan g ((g.arc a).next) fu := by
          simp only [xorChildScan]
          rw [if_neg hach]
        rw [hstep]
        exact ih g ((g.arc a).next) fu c hch' hcr hcc
          (fun b hb => huniq b (List.mem_cons_of_mem a hb)) (by simp at hfu; omega)

/-- C5: in _MergeBicomps, for every popped pair with ZPrevLink equal to
Rout, the flip step sets Rout to 1 XOR ZPrevLink, calls _InvertVertex(R)
exactly when R's adjacency list `l` holds more than one arc (first arc
differs from last arc), and xors the inverted flag on the unique tree-child
arc `c` found in R's adjacency list, touching no other inversion flag. -/
theorem mergeBicomps_flip_behavior (g : GState) (zPrevLink : Bool) (r : Nat) (rout : Bool)
    (fuel : Nat) (l : List Nat) (c : Nat)
    (hnext : linkChain (nextF g) ((g.vrec r).firstArc) l)
    (hprev : linkChain (prevF g) ((g.vrec r).lastArc) l.reverse)
    (hnd : l.Nodup) (hc : c ∈ l) (hcc : (g.arc c).etype = .child)
    (huniq : ∀ a ∈ l, (g.arc a).etype = .child → a = c)
    (hfu : l.length ≤ fuel) (heq : zPrevLink = rout) :
    (mergeFlip g zPrevLink r rout fuel).2 = !zPrevLink ∧
    ((mergeFlip g zPrevLink r rout fuel).1.arc c).inverted = !(g.arc c).inverted ∧
    (∀ a, a ≠ c →
      ((mergeFlip g zPrevLink r rout fuel).1.arc a).inverted = (g.arc a).inverted) ∧
    ((g.vrec r).firstArc = (g.vrec r).lastArc →
      ∀ a, ((mergeFlip g zPrevLink r rout fuel).1.arc a).next = (g.arc a).next ∧
           ((mergeFlip g zPrevLink r rout fuel).1.arc a).prev = (g.arc a).prev) ∧
    ((g.vrec r).firstArc ≠ (g.vrec r).lastArc →
      (∀ a ∈ l, ((mergeFlip g zPrevLink r rout fuel).1.arc a).next = (g.arc a).prev ∧
                ((mergeFlip g zPrevLink r rout fuel).1.arc a).prev = (g.arc a).next) ∧
      (∀ a, a ∉ l → (mergeFlip g zPrevLink r rout fuel).1.arc a = g.arc a)) := by
  by_cases hfl : (g.vrec r).firstArc = (g.vrec r).lastArc
  · have hpr : mergeFlip g zPrevLink r rout fuel =
        (xorChildScan g ((g.vrec r).firstArc) fuel, !zPrevLink) := by
      unfold mergeFlip
      rw [if_pos heq, if_neg (by simpa using hfl)]
    obtain ⟨hc1, hc2, _⟩ :=
      xorChildScan_effect l g ((g.vrec r).firstArc) fuel c hnext hc hcc huniq hfu
    rw [hpr]
    refine ⟨rfl, by rw [hc1], fun a ha => by rw [hc2 a ha], fun _ => ?_, fun h => absurd hfl h⟩
    intro a
    by_cases hac : a = c
    · subst hac; rw [hc1]; exact ⟨rfl, rfl⟩
    · rw [hc2 a hac]; exact ⟨rfl, rfl⟩
  · have hpr : mergeFlip g zPrevLink r rout fuel =
        (xorChildScan (invertVertex g r fuel)
          (((invertVertex g r fuel).vrec r).firstArc) fuel, !zPrevLink) := by
      unfold mergeFlip
      rw [if_pos heq, if_pos (by simpa using hfl)]
    obtain ⟨hin, hout, hvr, hvw⟩ := invertVertex_effect g r l fuel hnext hnd hfu
    set g1 := invertVertex g r fuel with hg1
    have hstart : (g1.vrec r).firstArc = (g.vrec r).lastArc := by rw [hvr]
    have hchain1 : linkChain (nextF g1) ((g1.vrec r).firstArc) l.reverse := by
      rw [hstart]
      refine linkChain_congr (prevF g) (nextF g1) l.reverse _ ?_ hprev
      intro b hb
      have hbl : b ∈ l := List.mem_reverse.mp hb
      rw [show nextF g1 b = (g1.arc b).next from rfl, hin b hbl]
      rfl
    have hccr : (g1.arc c).etype = .child := by rw [hin c hc]; exact hcc
    have huniqr : ∀ a ∈ l.reverse, (g1.arc a).etype = .child → a = c := by
      intro a ha hch
      have hal : a ∈ l := List.mem_reverse.mp ha
      rw [hin a hal] at hch
      exact huniq a hal hch
    obtain ⟨hc1, hc2, _⟩ :=
      xorChildScan_effect l.reverse g1 ((g1.vrec r).firstArc) fuel c hchain1
        (List.mem_reverse.mpr hc) hccr huniqr (by simpa using hfu)
    rw [hpr]
    refine ⟨rfl, ?_, ?_, fun h => absurd h hfl, fun _ => ⟨?_, ?_⟩⟩
    · rw [hc1, hin c hc]
    · intro a ha
      rw [hc2 a ha]
      by_cases hal : a ∈ l
      · rw [hin a hal]
      · rw [hout a hal]
    · intro a hal
      by_cases hac : a = c
      · subst hac; rw [hc1, hin a hal]; exact ⟨rfl, rfl⟩
      · rw [hc2 a hac, hin a hal]; exact ⟨rfl, rfl⟩
    · intro a hal
      have hac : a ≠ c := fun h => hal (h ▸ hc)
      rw [hc2 a hac, hout a hal]

theorem mergeBicomps_flip_behavior_witness :
    (mergeFlip cexC5 false 2 false 5).2 = true ∧
    ((mergeFlip cexC5 false 2 false 5).1.arc 4).inverted = !(cexC5.arc 4).inverted ∧
    ((mergeFlip cexC5 false 2 false 5).1.arc 6).inverted = (cexC5.arc 6).inverted ∧
    ((mergeFlip cexC5 false 2 false 5).1.arc 4).next = (cexC5.arc 4).prev := by
  have h := mergeBicomps_flip_behavior cexC5 false 2 false 5 [4, 6] 4
    (by decide) (by decide) (by decide) (by decide) (by decide)
    (by decide) (by decide) rfl
  exact ⟨h.1, h.2.1, h.2.2.1 6 (by decide),
    ((h.2.2.2.2 (by decide)).1 4 (by simp)).1⟩

theorem lowpointLoop_ge : ∀ (k : Nat) (g : GState) (v : Nat), k ≤ v →
    (lowpointLoop g k).vrec v = g.vrec v := by
  intro k
  induction k with
  | zero => intro g v _; rfl
  | succ k ih =>
      intro g v hv
      have h1 : (lowpointLoop (lowpointStep g k) k).vrec v = (lowpointStep g k).vrec v :=
        ih (lowpointStep g k) v (by omega)
      have h2 : (lowpointStep g k).vrec v = g.vrec v := by
        unfold lowpointStep
        simp [show v ≠ k by omega]
      exact h1.trans h2

theorem lowpointLoop_fields : ∀ (k : Nat) (g : GState) (v : Nat),
    ((lowpointLoop g k).vrec v).sortedDFSChildList = (g.vrec v).sortedDFSChildList ∧
    ((lowpointLoop g k).vrec v).leastAncestor = (g.vrec v).leastAncestor := by
  intro k
  induction k with
  | zero => intro g v; exact ⟨rfl, rfl⟩
  | succ k ih =>
      intro g v
      obtain ⟨h1, h2⟩ := ih (lowpointStep g k) v
      have hloop : lowpointLoop g (k + 1) = lowpointLoop (lowpointStep g k) k := rfl
      constructor
      · rw [hloop, h1]; unfold lowpointStep; by_cases hv : v = k <;> simp [hv]
      · rw [hloop, h2]; unfold lowpointStep; by_cases hv : v = k <;> simp [hv]

theorem foldl_min_min (l : List Nat) : ∀ a b : Nat,
    min (l.foldl min a) b = l.foldl min (min a b) := by
  induction l with
  | nil => intro a b; rfl
  | cons x xs ih =>
      intro a b
      simp only [List.foldl_cons]
      rw [ih (min a x) b, min_right_comm a x b]

theorem foldl_if_eq_min (lp : Nat → Nat) (l : List Nat) : ∀ a : Nat,
    l.foldl (fun lv c => if lv > lp c then lp c else lv) a = (l.map lp).foldl min a := by
  induction l with
  | nil => intro a; rfl
  | cons x xs ih =>
      intro a
      simp only [List.foldl_cons, List.map_cons]
      rw [show (if a > lp x then lp x else a) = min a (lp x) by
        rw [Nat.min_def]; split_ifs <;> omega]
      exact ih (min a (lp x))

theorem lowpointOf_eq (g : GState) (i : Nat) (hla : (g.vrec i).leastAncestor ≤ i) :
    lowpointOf g i =
      ((g.vrec i).sortedDFSChildList.map (fun c => (g.vrec c).lowpoint)).foldl min
        ((g.vrec i).leastAncestor) := by
  unfold lowpointOf
  rw [foldl_if_eq_min]
  rw [show ∀ a b : Nat, (if a > b then b else a) = min a b by
    intro a b; rw [Nat.min_def]; split_ifs <;> omega]
  rw [foldl_min_min, min_eq_right hla]

theorem lowpointLoop_equation : ∀ (k : Nat) (g : GState),
    (∀ i, i < k → ∀ c ∈ (g.vrec i).sortedDFSChildList, i < c) →
    (∀ i, i < k → (g.vrec i).leastAncestor ≤ i) →
    ∀ i, i < k →
      ((lowpointLoop g k).vrec i).lowpoint =
        (((g.vrec i).sortedDFSChildList).map
           (fun c => ((lowpointLoop g k).vrec c).lowpoint)).foldl min
          ((g.vrec i).leastAncestor) := by
  intro k
  induction k with
  | zero => intro g _ _ i hi; omega
  | succ k ih =>
      intro g hchild hla i hi
      have hloop : lowpointLoop g (k + 1) = lowpointLoop (lowpointStep g k) k := rfl
      have hstepfields : ∀ v, ((lowpointStep g k).vrec v).sortedDFSChildList =
          (g.vrec v).sortedDFSChildList ∧
          ((lowpointStep g k).vrec v).leastAncestor = (g.vrec v).leastAncestor := by
        intro v; unfold lowpointStep; by_cases hv : v = k <;> simp [hv]
      rcases Nat.lt_succ_iff_lt_or_eq.mp hi with hik | hik
      · have := ih (lowpointStep g k)
          (fun j hj c hc => hchild j (by omega) c (by rw [(hstepfields j).1] at hc; exact hc))
          (fun j hj => by rw [(hstepfields j).2]; exact hla j (by omega))
          i hik
        rw [hloop, this, (hstepfields i).1, (hstepfields i).2]
      · subst hik
        have hlhs : ((lowpointLoop g (i + 1)).vrec i).lowpoint = lowpointOf g i := by
          rw [hloop, lowpointLoop_ge i (lowpointStep g i) i (le_refl i)]
          unfold lowpointStep
          simp
        have hrhs : (((g.vrec i).sortedDFSChildList).map
            (fun c => ((lowpointLoop g (i + 1)).vrec c).lowpoint)) =
            (((g.vrec i).sortedDFSChildList).map (fun c => (g.vrec c).lowpoint)) := by
          refine List.map_congr_left ?_
          intro c hc
          have hic : i < c := hchild i (by omega) c hc
          rw [hloop, lowpointLoop_ge i (lowpointStep g i) c (by omega)]
          unfold lowpointStep
          simp [show c ≠ i by omega]
        rw [hlhs, hrhs, lowpointOf_eq g i (hla i (by omega))]

/-- C1: after the reverse-DFI lowpoint pass of _EmbeddingInitialize, every
vertex I below N satisfies lowpoint(I) = min(leastAncestor(I), min over the
DFS children C of I of lowpoint(C)), the minimum over an empty child list
being dropped (the fold below starts at leastAncestor(I)); the hypotheses
record the DFS facts that every child has a larger DFI than its parent and
that leastAncestor(I) never exceeds I. -/
theorem lowpoint_equation_after_initialize (g : GState)
    (hchild : ∀ i, i < g.N → ∀ c ∈ (g.vrec i).sortedDFSChildList, i < c)
    (hla : ∀ i, i < g.N → (g.vrec i).leastAncestor ≤ i) :
    ∀ i, i < g.N →
      ((lowpointLoop g g.N).vrec i).lowpoint =
        ((((lowpointLoop g g.N).vrec i).sortedDFSChildList).map
           (fun c => ((lowpointLoop g g.N).vrec c).lowpoint)).foldl min
          (((lowpointLoop g g.N).vrec i).leastAncestor) := by
  intro i hi
  rw [(lowpointLoop_fields g.N g i).1, (lowpointLoop_fields g.N g i).2]
  exact lowpointLoop_equation g.N g hchild hla i hi

theorem lowpoint_equation_after_initialize_witness :
    ((lowpointLoop cexC1 cexC1.N).vrec 1).lowpoint =
      ((((lowpointLoop cexC1 cexC1.N).vrec 1).sortedDFSChildList).map
         (fun c => ((lowpointLoop cexC1 cexC1.N).vrec c).lowpoint)).foldl min
        (((lowpointLoop cexC1 cexC1.N).vrec 1).leastAncestor) :=
  lowpoint_equation_after_initialize cexC1 (by decide) (by decide) 1 (by decide)

theorem partitioned_nil (lp : Nat → Nat) (i : Nat) : partitioned lp i [] :=
  ⟨[], [], rfl, by simp, by simp⟩

theorem partitioned_prepend (lp : Nat → Nat) (i x : Nat) (l : List Nat)
    (hx : i ≤ lp x) (h : partitioned lp i l) : partitioned lp i (x :: l) := by
  obtain ⟨l1, l2, rfl, h1, h2⟩ := h
  refine ⟨x :: l1, l2, rfl, ?_, h2⟩
  intro y hy
  rcases List.mem_cons.mp hy with rfl | hy'
  · exact hx
  · exact h1 y hy'

theorem partitioned_append (lp : Nat → Nat) (i x : Nat) (l : List Nat)
    (hx : lp x < i) (h : partitioned lp i l) : partitioned lp i (l ++ [x]) := by
  obtain ⟨l1, l2, rfl, h1, h2⟩ := h
  refine ⟨l1, l2 ++ [x], by rw [List.append_assoc], h1, ?_⟩
  intro y hy
  rcases List.mem_append.mp hy with hy' | hy'
  · exact h2 y hy'
  · rw [List.mem_singleton.mp hy']; exact hx

theorem walkUpLoop_preserves (P : GState → Prop) (i : Nat)
    (hP1 : ∀ (g : GState) (v i' : Nat),
      P g → P (updV g v (fun r => { r with visitedInfo := i' })))
    (hP2 : ∀ (g : GState) (r' : Nat), P g → P (pertinentRootInsert g i r')) :
    ∀ (fuel : Nat) (g : GState) (zig zag : Nat) (zpl zagpl : Bool),
      P g → P (walkUpLoop fuel g i zig zag zpl zagpl) := by
  intro fuel
  induction fuel with
  | zero => intro g zig zag zpl zagpl hg; exact hg
  | succ fuel ih =>
      intro g zig zag zpl zagpl hg
      unfold walkUpLoop
      dsimp only
      repeat' split
      all_goals first
        | exact hg
        | exact ih _ _ _ _ _ (hP2 _ _ (hP1 _ _ _ (hP1 _ _ _ hg)))
        | exact hP2 _ _ (hP1 _ _ _ (hP1 _ _ _ hg))
        | exact ih _ _ _ _ _ (hP1 _ _ _ (hP1 _ _ _ hg))

/-- C3: in _WalkUp, each bicomp root R found on the external-face walk is
recorded in the pertinentBicompList of its parent copy: prepended (becoming
the head) when lowpoint(R-N) ≥ I and appended (becoming the last element)
when lowpoint(R-N) < I; consequently every pertinentBicompList that lists
all internally active bicomps before all externally active ones keeps that
shape across a whole Walkup, so iteration meets internally active bicomps
before externally active ones. -/
theorem walkUp_pertinentBicompList_order :
    (∀ (g : GState) (i r p : Nat), (g.vrec (r - g.N)).parent = some p →
      (i ≤ (g.vrec (r - g.N)).lowpoint →
        ((pertinentRootInsert g i r).vrec p).pertinentBicompList =
          (r - g.N) :: (g.vrec p).pertinentBicompList) ∧
      ((g.vrec (r - g.N)).lowpoint < i →
        ((pertinentRootInsert g i r).vrec p).pertinentBicompList =
          (g.vrec p).pertinentBicompList ++ [r - g.N])) ∧
    (∀ (g : GState) (i j fuel : Nat) (lp : Nat → Nat),
      (∀ v, (g.vrec v).lowpoint = lp v) →
      (∀ v, partitioned lp i ((g.vrec v).pertinentBicompList)) →
      ∀ v, partitioned lp i (((walkUp g i j fuel).vrec v).pertinentBicompList)) := by
  constructor
  · intro g i r p hp
    constructor
    · intro hge
      unfold pertinentRootInsert
      dsimp only
      rw [hp]
      dsimp only
      rw [if_neg (Nat.not_lt.mpr hge)]
      simp [LCPrepend]
    · intro hlt
      unfold pertinentRootInsert
      dsimp only
      rw [hp]
      dsimp only
      rw [if_pos hlt]
      simp [LCAppend]
  · intro g i j fuel lp hlp hpart
    have hP1 : ∀ (g' : GState) (v i' : Nat),
        ((∀ w, (g'.vrec w).lowpoint = lp w) ∧
         (∀ w, partitioned lp i ((g'.vrec w).pertinentBicompList))) →
        ((∀ w, ((updV g' v (fun r => { r with visitedInfo := i' })).vrec w).lowpoint = lp w) ∧
         (∀ w, partitioned lp i
           (((updV g' v (fun r => { r with visitedInfo := i' })).vrec w).pertinentBicompList))) := by
      rintro g' v i' ⟨ha, hb⟩
      refine ⟨fun w => ?_, fun w => ?_⟩
      · by_cases hw : w = v <;> simp [hw, ha w, ha v]
      · by_cases hw : w = v
        · subst hw; simpa using hb w
        · simpa [hw] using hb w
    have hP2 : ∀ (g' : GState) (r' : Nat),
        ((∀ w, (g'.vrec w).lowpoint = lp w) ∧
         (∀ w, partitioned lp i ((g'.vrec w).pertinentBicompList))) →
        ((∀ w, ((pertinentRootInsert g' i r').vrec w).lowpoint = lp w) ∧
         (∀ w, partitioned lp i
           (((pertinentRootInsert g' i r').vrec w).pertinentBicompList))) := by
      rintro g' r' ⟨ha, hb⟩
      unfold pertinentRootInsert
      dsimp only
      cases hp : (g'.vrec (r' - g'.N)).parent with
      | none => exact ⟨ha, hb⟩
      | some pc =>
          dsimp only
          refine ⟨fun w => ?_, fun w => ?_⟩
          · by_cases hw : w = pc <;> simp [hw, ha w, ha pc]
          · by_cases hw : w = pc
            · rw [hw]
              simp only [updV_vrec, if_pos rfl]
              by_cases hlt : (g'.vrec (r' - g'.N)).lowpoint < i
              · rw [if_pos hlt]
                refine partitioned_append lp i (r' - g'.N) _ ?_ (hb pc)
                rw [← ha (r' - g'.N)]; exact hlt
              · rw [if_neg hlt]
                refine partitioned_prepend lp i (r' - g'.N) _ ?_ (hb pc)
                rw [← ha (r' - g'.N)]; exact Nat.not_lt.mp hlt
            · simpa [hw] using hb w
    have hstart : (∀ w, ((updV g ((g.arc j).neighbor)
          (fun r => { r with pertinentAdjacencyInfo := some j })).vrec w).lowpoint = lp w) ∧
        (∀ w, partitioned lp i
          (((updV g ((g.arc j).neighbor)
            (fun r => { r with pertinentAdjacencyInfo := some j })).vrec w).pertinentBicompList)) := by
      refine ⟨fun w => ?_, fun w => ?_⟩
      · by_cases hw : w = (g.arc j).neighbor <;> simp [hw, hlp w, hlp ((g.arc j).neighbor)]
      · by_cases hw : w = (g.arc j).neighbor
        · rw [hw]; simpa using hpart ((g.arc j).neighbor)
        · simpa [hw] using hpart w
    exact (walkUpLoop_preserves
      (fun g' => (∀ w, (g'.vrec w).lowpoint = lp w) ∧
                 (∀ w, partitioned lp i ((g'.vrec w).pertinentBicompList)))
      i hP1 hP2 fuel _ _ _ true false hstart).2

theorem walkUp_pertinentBicompList_order_witness :
    ((pertinentRootInsert cexC3 5 3).vrec 0).pertinentBicompList =
      1 :: (cexC3.vrec 0).pertinentBicompList ∧
    partitioned (fun v => (cexC3.vrec v).lowpoint) 5
      (((walkUp cexC3 5 9 3).vrec 0).pertinentBicompList) := by
  constructor
  · exact (walkUp_pertinentBicompList_order.1 cexC3 5 3 0 (by decide)).1 (by decide)
  · refine walkUp_pertinentBicompList_order.2 cexC3 5 9 3 _ (fun v => rfl) ?_ 0
    intro v
    match v with
    | 0 => exact ⟨[], [5], rfl, by simp, by decide⟩
    | 1 => exact ⟨[], [], rfl, by simp, by simp⟩
    | (w + 2) =>
        have hv : cexC3.vrec (w + 2) = initVertexRec := by
          have h0 : cexC3.vrec (w + 2) =
              List.getD [ { initVertexRec with pertinentBicompList := [5], lowpoint := 4 },
                          { initVertexRec with parent := some 0, lowpoint := 7 } ]
                (w + 2) initVertexRec := rfl
          rw [h0]
          exact List.getD_eq_default _ _ (by simp)
        refine ⟨[], [], ?_, by simp, by simp⟩
        rw [hv]
        rfl

theorem vrec_setALink (g : GState) (a : Nat) (lk : Bool) (v : Option Nat) :
    (setALink g a lk v).vrec = g.vrec := rfl

theorem vrec_setALinkO (g : GState) (o : Option Nat) (lk : Bool) (v : Option Nat) :
    (setALinkO g o lk v).vrec = g.vrec := by cases o <;> rfl

theorem arc_setVArc (g : GState) (v : Nat) (lk : Bool) (a : Option Nat) :
    (setVArc g v lk a).arc = g.arc := rfl

theorem arc_setExtFace (g : GState) (v : Nat) (lk : Bool) (x : Nat) :
    (setExtFace g v lk x).arc = g.arc := rfl

theorem pai_setVArc (g : GState) (v : Nat) (lk : Bool) (a : Option Nat) (x : Nat) :
    ((setVArc g v lk a).vrec x).pertinentAdjacencyInfo = (g.vrec x).pertinentAdjacencyInfo := by
  by_cases h : x = v <;> cases lk <;> simp [setVArc, h]

theorem pai_setExtFace (g : GState) (v : Nat) (lk : Bool) (w : Nat) (x : Nat) :
    ((setExtFace g v lk w).vrec x).pertinentAdjacencyInfo = (g.vrec x).pertinentAdjacencyInfo := by
  by_cases h : x = v <;> cases lk <;> simp [setExtFace, h]

theorem pai_updV_fwd (g : GState) (p : Nat) (o : Option Nat) (x : Nat) :
    ((updV g p (fun r => { r with fwdArcList := o })).vrec x).pertinentAdjacencyInfo =
      (g.vrec x).pertinentAdjacencyInfo := by
  by_cases h : x = p <;> simp [h]

theorem getVArc_setALink (g : GState) (a : Nat) (lk : Bool) (v : Option Nat)
    (v' : Nat) (lk' : Bool) : getVArc (setALink g a lk v) v' lk' = getVArc g v' lk' := rfl

theorem getVArc_setALinkO (g : GState) (o : Option Nat) (lk : Bool) (v : Option Nat)
    (v' : Nat) (lk' : Bool) : getVArc (setALinkO g o lk v) v' lk' = getVArc g v' lk' := by
  cases o <;> rfl

theorem getVArc_updA (g : GState) (a : Nat) (f : ARec → ARec) (v : Nat) (lk : Bool) :
    getVArc (updA g a f) v lk = getVArc g v lk := rfl

theorem getVArc_setExtFace (g : GState) (v : Nat) (lk : Bool) (x : Nat)
    (v' : Nat) (lk' : Bool) : getVArc (setExtFace g v lk x) v' lk' = getVArc g v' lk' := by
  by_cases h : v' = v <;> cases lk <;> cases lk' <;> simp [getVArc, setExtFace, h]

theorem getVArc_setVArc_same (g : GState) (v : Nat) (lk : Bool) (a : Option Nat) :
    getVArc (setVArc g v lk a) v lk = a := by
  cases lk <;> simp [getVArc, setVArc]

theorem getVArc_setVArc_ne (v' v : Nat) (h : v' ≠ v) (g : GState) (lk lk' : Bool)
    (a : Option Nat) : getVArc (setVArc g v lk a) v' lk' = getVArc g v' lk' := by
  cases lk <;> cases lk' <;> simp [getVArc, setVArc, h]

theorem getVArc_updV_pai (g : GState) (v : Nat) (o : Option Nat) (v' : Nat) (lk : Bool) :
    getVArc (updV g v (fun r => { r with pertinentAdjacencyInfo := o })) v' lk =
      getVArc g v' lk := by
  by_cases h : v' = v <;> cases lk <;> simp [getVArc, h]

theorem state_next (g : GState) (w : Nat) (wp : Bool) : (WDStepOut.next g w wp).state = g := rfl

theorem state_stop (g : GState) : (WDStepOut.stop g).state = g := rfl

theorem state_ret (g : GState) (rv : RES) : (WDStepOut.ret g rv).state = g := rfl

theorem embedBackEdge_effect (g : GState) (rootSide : Bool) (rootVertex w : Nat)
    (wPrevLink : Bool) (a pc : Nat)
    (hpai : (g.vrec w).pertinentAdjacencyInfo = some a)
    (hpar : (g.vrec (rootVertex - g.N)).parent = some pc)
    (hw : w ≠ rootVertex) :
    getVArc (embedBackEdgeToDescendant g rootSide rootVertex w wPrevLink)
      rootVertex rootSide = some a ∧
    getVArc (embedBackEdgeToDescendant g rootSide rootVertex w wPrevLink)
      w wPrevLink = some (twinArc a) ∧
    ((embedBackEdgeToDescendant g rootSide rootVertex w wPrevLink).arc
      (twinArc a)).neighbor = rootVertex ∧
    (∀ v, ((embedBackEdgeToDescendant g rootSide rootVertex w wPrevLink).vrec v).pertinentAdjacencyInfo
       = (g.vrec v).pertinentAdjacencyInfo) := by
  unfold embedBackEdgeToDescendant
  rw [hpai]
  dsimp only
  rw [hpar]
  dsimp only
  refine ⟨?_, ?_, ?_, ?_⟩
  · simp only [getVArc_setExtFace, getVArc_updA,
      getVArc_setVArc_ne rootVertex w (Ne.symm hw), getVArc_setALinkO, getVArc_setALink,
      getVArc_setVArc_same]
  · simp only [getVArc_setExtFace, getVArc_updA, getVArc_setVArc_same]
  · simp only [arc_setExtFace]
    simp
  · intro v
    simp only [pai_setExtFace, updA_vrec, pai_setVArc, vrec_setALinkO, vrec_setALink]
    split
    · split
      · simp only [pai_updV_fwd]
      · simp only [pai_updV_fwd]
    · rfl

theorem walkDownStep_state (g : GState) (i rootVertex : Nat) (rootSide : Bool) (w : Nat)
    (wPrevLink : Bool) (fuel : Nat) :
    (walkDownStep g i rootVertex rootSide w wPrevLink fuel).state.vrec =
      (walkDownStepEmbed g rootSide rootVertex w wPrevLink fuel).vrec ∧
    (walkDownStep g i rootVertex rootSide w wPrevLink fuel).state.arc =
      (walkDownStepEmbed g rootSide rootVertex w wPrevLink fuel).arc := by
  unfold walkDownStep
  dsimp only
  constructor <;> (repeat' split) <;> rfl

theorem getVArc_congr (g g' : GState) (h : g.vrec = g'.vrec) (v : Nat) (lk : Bool) :
    getVArc g v lk = getVArc g' v lk := by
  cases lk <;> simp [getVArc, h]

/-- C4: the pertinence marker protocol for step I.  _WalkUp(I, J)
unconditionally sets pertinentAdjacencyInfo of W = neighbor(J) to the
forward arc J (and nothing in its traversal loop disturbs it), and the
Walkdown's inner step clears the marker back to NIL exactly when it embeds
the back edge: when W's marker is NIL, no pertinentAdjacencyInfo changes at
all; when it holds a forward arc `a`, the step leaves W's marker NIL, the
forward arc `a` embedded as the RootSide arc of the root vertex, and its
twin embedded as the WPrevLink arc of W pointing back at the root vertex. -/
theorem pertinentAdjacencyInfo_walkUp_walkDown :
    (∀ (g : GState) (i j fuel : Nat),
      ((walkUp g i j fuel).vrec ((g.arc j).neighbor)).pertinentAdjacencyInfo = some j) ∧
    (∀ (g : GState) (i rootVertex : Nat) (rootSide : Bool) (w : Nat) (wPrevLink : Bool)
       (fuel : Nat),
      ((g.vrec w).pertinentAdjacencyInfo = none →
        ∀ v, ((walkDownStep g i rootVertex rootSide w wPrevLink fuel).state.vrec v).pertinentAdjacencyInfo
          = (g.vrec v).pertinentAdjacencyInfo) ∧
      (∀ a pc, (g.vrec w).pertinentAdjacencyInfo = some a → g.stack = [] →
        (g.vrec (rootVertex - g.N)).parent = some pc → w ≠ rootVertex →
        (((walkDownStep g i rootVertex rootSide w wPrevLink fuel).state.vrec w).pertinentAdjacencyInfo = none ∧
         getVArc (walkDownStep g i rootVertex rootSide w wPrevLink fuel).state
           rootVertex rootSide = some a ∧
         getVArc (walkDownStep g i rootVertex rootSide w wPrevLink fuel).state
           w wPrevLink = some (twinArc a) ∧
         ((walkDownStep g i rootVertex rootSide w wPrevLink fuel).state.arc
           (twinArc a)).neighbor = rootVertex))) := by
  constructor
  · intro g i j fuel
    unfold walkUp
    have main := walkUpLoop_preserves
      (fun g' => (g'.vrec ((g.arc j).neighbor)).pertinentAdjacencyInfo = some j) i
      (by
        intro g' v i' hg'
        by_cases h : (g.arc j).neighbor = v
        · rw [h] at hg' ⊢; simpa using hg'
        · simpa [h] using hg')
      (by
        intro g' r' hg'
        unfold pertinentRootInsert
        dsimp only
        cases hp : (g'.vrec (r' - g'.N)).parent with
        | none => exact hg'
        | some pc =>
            dsimp only
            by_cases h : (g.arc j).neighbor = pc
            · rw [h] at hg' ⊢; simpa using hg'
            · simpa [h] using hg')
      fuel (updV g ((g.arc j).neighbor)
        (fun r => { r with pertinentAdjacencyInfo := some j }))
      ((g.arc j).neighbor) ((g.arc j).neighbor) true false (by simp)
    exact main
  · intro g i rootVertex rootSide w wPrevLink fuel
    constructor
    · intro hnone v
      have hemb : walkDownStepEmbed g rootSide rootVertex w wPrevLink fuel = g := by
        unfold walkDownStepEmbed
        rw [if_neg (by simp [hnone])]
      rw [(walkDownStep_state g i rootVertex rootSide w wPrevLink fuel).1, hemb]
    · intro a pc hpai hstack hpar hw
      have hemb : walkDownStepEmbed g rootSide rootVertex w wPrevLink fuel =
          updV (embedBackEdgeToDescendant g rootSide rootVertex w wPrevLink) w
            (fun r => { r with pertinentAdjacencyInfo := none }) := by
        unfold walkDownStepEmbed
        rw [if_pos (by simp [hpai])]
        dsimp only
        rw [if_neg (by simp [hstack])]
      obtain ⟨e1, e2, e3, e4⟩ :=
        embedBackEdge_effect g rootSide rootVertex w wPrevLink a pc hpai hpar hw
      obtain ⟨hsv, hsa⟩ := walkDownStep_state g i rootVertex rootSide w wPrevLink fuel
      have hcongr : ∀ (v' : Nat) (lk : Bool),
          getVArc (walkDownStep g i rootVertex rootSide w wPrevLink fuel).state v' lk =
            getVArc (updV (embedBackEdgeToDescendant g rootSide rootVertex w wPrevLink) w
              (fun r => { r with pertinentAdjacencyInfo := none })) v' lk := by
        intro v' lk
        exact getVArc_congr _ _ (by rw [hsv, hemb]) v' lk
      refine ⟨?_, ?_, ?_, ?_⟩
      · rw [hsv, hemb]; simp
      · rw [hcongr rootVertex rootSide, getVArc_updV_pai]
        exact e1
      · rw [hcongr w wPrevLink, getVArc_updV_pai]
        exact e2
      · rw [hsa, hemb]
        simpa using e3

theorem pertinentAdjacencyInfo_walkUp_walkDown_witness :
    (((walkDownStep cexC4 1 3 false 0 false 2).state.vrec 0).pertinentAdjacencyInfo = none ∧
     getVArc (walkDownStep cexC4 1 3 false 0 false 2).state 3 false = some 4 ∧
     getVArc (walkDownStep cexC4 1 3 false 0 false 2).state 0 false = some (twinArc 4) ∧
     ((walkDownStep cexC4 1 3 false 0 false 2).state.arc (twinArc 4)).neighbor = 3) ∧
    (((walkDownStep cexC4 1 3 false 2 false 2).state.vrec 2).pertinentAdjacencyInfo =
      (cexC4.vrec 2).pertinentAdjacencyInfo) := by
  constructor
  · exact (pertinentAdjacencyInfo_walkUp_walkDown.2 cexC4 1 3 false 0 false 2).2 4 1
      (by decide) rfl (by decide) (by decide)
  · exact (pertinentAdjacencyInfo_walkUp_walkDown.2 cexC4 1 3 false 2 false 2).1
      (by decide) 2

theorem sideFinish_extFace (g : GState) (rv : Nat) (side : Bool) (w : Nat) (wp : Bool) :
    getExtFace (sideFinish g rv side w wp) rv side = w ∧
    getExtFace (sideFinish g rv side w wp) w wp = rv := by
  unfold sideFinish
  dsimp only
  constructor
  all_goals split
  all_goals by_cases h : w = rv
  all_goals cases side
  all_goals cases wp
  all_goals first
    | (subst h; simp [getExtFace, setExtFace, updV])
    | simp [getExtFace, setExtFace, updV, h, Ne.symm h]

/-- C6: after _WalkDown finishes traversing a RootSide (the inner loop ends
with `thru`, by returning to the root or stopping at an externally active
vertex), the side epilogue unconditionally short-circuits the external face:
extFace[RootSide] of the root vertex is set to the final vertex W and
extFace[WPrevLink] of W is set to the root vertex; this happens for RootSide
0 and then, unless side 0 already came back around to the root vertex, for
RootSide 1, as the unfolding of walkDown shows. -/
theorem walkDown_shortCircuits_externalFace :
    (∀ (fuel : Nat) (g : GState) (i rootVertex : Nat) (rootSide : Bool) (w0 : Nat)
       (wp0 : Bool) (g' : GState) (w : Nat) (wp : Bool),
      walkDownLoop fuel g i rootVertex rootSide w0 wp0 = .thru g' w wp →
      getExtFace (sideFinish g' rootVertex rootSide w wp) rootVertex rootSide = w ∧
      getExtFace (sideFinish g' rootVertex rootSide w wp) w wp = rootVertex) ∧
    (∀ (g : GState) (i rootVertex fuel w0 : Nat) (wp0 : Bool) (g' : GState)
       (w : Nat) (wp : Bool),
      walkDownEntry { g with stack := [] } rootVertex false = some (w0, wp0) →
      walkDownLoop fuel { g with stack := [] } i rootVertex false w0 wp0 = .thru g' w wp →
      w = rootVertex →
      walkDown g i rootVertex fuel = (.OK, sideFinish g' rootVertex false w wp)) ∧
    (∀ (g : GState) (i rootVertex fuel w0 : Nat) (wp0 : Bool) (g' : GState)
       (w : Nat) (wp : Bool) (w1 : Nat) (wp1 : Bool) (g3 : GState) (w' : Nat) (wp' : Bool),
      walkDownEntry { g with stack := [] } rootVertex false = some (w0, wp0) →
      walkDownLoop fuel { g with stack := [] } i rootVertex false w0 wp0 = .thru g' w wp →
      w ≠ rootVertex →
      walkDownEntry (sideFinish g' rootVertex false w wp) rootVertex true = some (w1, wp1) →
      walkDownLoop fuel (sideFinish g' rootVertex false w wp) i rootVertex true w1 wp1 =
        .thru g3 w' wp' →
      walkDown g i rootVertex fuel = (.OK, sideFinish g3 rootVertex true w' wp')) := by
  refine ⟨?_, ?_, ?_⟩
  · intro fuel g i rootVertex rootSide w0 wp0 g' w wp _
    exact sideFinish_extFace g' rootVertex rootSide w wp
  · intro g i rootVertex fuel w0 wp0 g' w wp hentry hloop hweq
    unfold walkDown
    dsimp only
    rw [hentry]
    dsimp only
    rw [hloop]
    dsimp only
    rw [if_pos hweq]
  · intro g i rootVertex fuel w0 wp0 g' w wp w1 wp1 g3 w' wp' hentry hloop hwne hentry1 hloop1
    unfold walkDown
    dsimp only
    rw [hentry]
    dsimp only
    rw [hloop]
    dsimp only
    rw [if_neg hwne, hentry1]
    dsimp only
    rw [hloop1]

theorem walkDown_shortCircuits_externalFace_witness :
    (getExtFace (sideFinish { cexC6 with stack := [] } 2 false 1 true) 2 false = 1 ∧
     getExtFace (sideFinish { cexC6 with stack := [] } 2 false 1 true) 1 true = 2) ∧
    walkDown cexC6 0 2 3 =
      (.OK, sideFinish { cexC6 with stack := [] } 2 false 2 false) := by
  constructor
  · exact walkDown_shortCircuits_externalFace.1 1 { cexC6 with stack := [] } 1 2 false 1 true
      { cexC6 with stack := [] } 1 true rfl
  · exact walkDown_shortCircuits_externalFace.2.1 cexC6 0 2 3 1 true
      { cexC6 with stack := [] } 2 false rfl rfl rfl

theorem twinArc_ne (a : Nat) : twinArc a ≠ a := by
  unfold twinArc
  intro hcon
  have h1 : (a ^^^ 1) ^^^ a = a ^^^ a := by rw [hcon]
  rw [Nat.xor_comm a 1, Nat.xor_assoc, Nat.xor_self] at h1
  simp at h1

theorem linkChain_start (f : Nat → Option Nat) (o : Option Nat) (l : List Nat)
    (h : linkChain f o l) : o = l.head? := by
  cases l with
  | nil => exact h
  | cons a rest => exact h.1

theorem linkChain_elem (f : Nat → Option Nat) (x : Nat) :
    ∀ (m1 : List Nat) (o : Option Nat) (m2 : List Nat),
      linkChain f o (m1 ++ x :: m2) → linkChain f (f x) m2 := by
  intro m1
  induction m1 with
  | nil => intro o m2 h; exact h.2
  | cons a m1' ih => intro o m2 h; exact ih (f a) m2 h.2

theorem linkChain_remove (f f' : Nat → Option Nat) (x : Nat) :
    ∀ (l1 : List Nat) (o : Option Nat) (l2 : List Nat),
      linkChain f o (l1 ++ x :: l2) →
      (l1 ++ x :: l2).Nodup →
      (∀ b ∈ l2, f' b = f b) →
      (∀ p, l1.getLast? = some p → (f' p = f x ∧ ∀ b ∈ l1, b ≠ p → f' b = f b)) →
      linkChain f' (if l1.isEmpty then f x else o) (l1 ++ l2) := by
  intro l1
  induction l1 with
  | nil =>
      intro o l2 hch _ hl2 _
      simp only [List.nil_append] at hch ⊢
      simp only [List.isEmpty_nil, if_true]
      exact linkChain_congr f f' l2 (f x) hl2 hch.2
  | cons a l1' ih =>
      intro o l2 hch hnd hl2 hl1
      obtain ⟨ho, h2⟩ := hch
      simp only [List.isEmpty_cons, if_neg (by simp : ¬(false = true))]
      by_cases hemp : l1'.isEmpty
      · have hnil : l1' = [] := List.isEmpty_iff.mp hemp
        subst hnil
        obtain ⟨hfa, _⟩ := hl1 a (by simp)
        refine ⟨ho, ?_⟩
        rw [hfa]
        exact linkChain_congr f f' l2 (f x) hl2 h2.2
      · have hne : l1' ≠ [] := fun hn => hemp (by simp [hn])
        obtain ⟨p, hp⟩ : ∃ p, l1'.getLast? = some p :=
          ⟨l1'.getLast hne, List.getLast?_eq_getLast_of_ne_nil hne⟩
        have hconsLast : (a :: l1').getLast? = some p := by
          cases l1' with
          | nil => exact absurd rfl hne
          | cons c rest => rw [List.getLast?_cons_cons]; exact hp
        obtain ⟨hfp, hrest⟩ := hl1 p hconsLast
        have hnd' : (l1' ++ x :: l2).Nodup := (List.nodup_cons.mp hnd).2
        have hanotin : a ∉ l1' ++ x :: l2 := (List.nodup_cons.mp hnd).1
        have hl1' : ∀ q, l1'.getLast? = some q →
            (f' q = f x ∧ ∀ b ∈ l1', b ≠ q → f' b = f b) := by
          intro q hq
          rw [hp] at hq
          obtain rfl : p = q := by injection hq
          exact ⟨hfp, fun b hb hbp =>
            hrest b (List.mem_cons_of_mem a hb) hbp⟩
        have ih' := ih (f a) l2 h2 hnd' hl2 hl1'
        rw [if_neg (by simpa using hne)] at ih'
        have hfa : f' a = f a := by
          refine hrest a (List.mem_cons_self a l1') ?_
          intro hap
          apply hanotin
          rw [hap]
          exact List.mem_append_left _ (List.mem_of_mem_getLast? hp)
        refine ⟨ho, ?_⟩
        rw [hfa]
        exact ih'

theorem pathChain_congr (f f' : Nat → Option Nat) :
    ∀ (t : List Nat) (cur tgt : Nat),
      (∀ x, (x = cur ∨ x ∈ t) → f' x = f x) →
      pathChain f cur t tgt → pathChain f' cur t tgt := by
  intro t
  induction t with
  | nil =>
      intro cur tgt hag h
      show f' cur = some tgt
      rw [hag cur (Or.inl rfl)]
      exact h
  | cons b t' ih =>
      intro cur tgt hag h
      obtain ⟨h1, h2⟩ := h
      refine ⟨?_, ?_⟩
      · rw [hag cur (Or.inl rfl)]; exact h1
      · exact ih b tgt (fun x hx => hag x (by
          rcases hx with rfl | hx
          · exact Or.inr (List.mem_cons_self x t')
          · exact Or.inr (List.mem_cons_of_mem b hx))) h2

theorem pathChain_divert (f f' : Nat → Option Nat) (tgt jt : Nat) :
    ∀ (t : List Nat) (cur z : Nat),
      pathChain f cur t tgt → cur ∉ t → t.Nodup →
      t.getLast?.getD cur = z →
      (∀ x, (x = cur ∨ x ∈ t) → x ≠ z → f' x = f x) →
      f' z = some jt → f' jt = some tgt →
      pathChain f' cur (t ++ [jt]) tgt := by
  intro t
  induction t with
  | nil =>
      intro cur z _ _ _ hz _ hz1 hjt
      obtain rfl : cur = z := by simpa using hz
      exact ⟨hz1, hjt⟩
  | cons b t' ih =>
      intro cur z hch hcur hnd hz hagree hz1 hjt
      obtain ⟨h1, h2⟩ := hch
      have hzmem : z ∈ b :: t' := by
        have hne : (b :: t') ≠ [] := List.cons_ne_nil b t'
        rw [List.getLast?_eq_getLast_of_ne_nil hne] at hz
        simp only [Option.getD_some] at hz
        rw [← hz]
        exact List.getLast_mem hne
      refine ⟨?_, ?_⟩
      · rw [hagree cur (Or.inl rfl) ?_]
        · exact h1
        · intro hcz
          exact hcur (hcz ▸ hzmem)
      · refine ih b z h2 (List.nodup_cons.mp hnd).1 (List.nodup_cons.mp hnd).2 ?_ ?_ hz1 hjt
        · cases t' with
          | nil => simpa using hz
          | cons c rest => rw [List.getLast?_cons_cons] at hz; exact hz
        · intro x hx hxz
          refine hagree x ?_ hxz
          rcases hx with rfl | hx
          · exact Or.inr (List.mem_cons_self x t')
          · exact Or.inr (List.mem_cons_of_mem b hx)

set_option maxRecDepth 8192 in
theorem backEdgeRemove_master (g : GState) (u j : Nat) (l1 l2 : List Nat)
    (hjp : (g.arc (twinArc j)).prev = l1.reverse.head?)
    (hjn : (g.arc (twinArc j)).next = l2.head?) :
    (∀ x, ((backEdgeRemove g u j).arc x).next =
            (if l1.reverse.head? = some x then l2.head? else (g.arc x).next) ∧
          ((backEdgeRemove g u j).arc x).prev =
            (if l2.head? = some x then l1.reverse.head? else (g.arc x).prev) ∧
          ((backEdgeRemove g u j).arc x).etype =
            (if x = twinArc j then EdgeType.forward
             else if x = j then EdgeType.back else (g.arc x).etype) ∧
          ((backEdgeRemove g u j).arc x).neighbor = (g.arc x).neighbor ∧
          ((backEdgeRemove g u j).arc x).inverted = (g.arc x).inverted) ∧
    (∀ v, ((backEdgeRemove g u j).vrec v).firstArc =
            (if l1.reverse.head? = none ∧ v = (g.arc j).neighbor then l2.head?
             else (g.vrec v).firstArc) ∧
          ((backEdgeRemove g u j).vrec v).lastArc =
            (if l2.head? = none ∧ v = (g.arc j).neighbor then l1.reverse.head?
             else (g.vrec v).lastArc) ∧
          ((backEdgeRemove g u j).vrec v).fwdArcList = (g.vrec v).fwdArcList ∧
          ((backEdgeRemove g u j).vrec v).index = (g.vrec v).index ∧
          ((backEdgeRemove g u j).vrec v).leastAncestor = (g.vrec v).leastAncestor ∧
          ((backEdgeRemove g u j).vrec v).pertinentAdjacencyInfo =
            (g.vrec v).pertinentAdjacencyInfo) := by
  have hjtne : twinArc j ≠ j := twinArc_ne j
  have hjne : ¬(j = twinArc j) := fun hc => hjtne hc.symm
  have e_nb : ((updA (updA g j (fun r => { r with etype := EdgeType.back })) (twinArc j)
      (fun r => { r with etype := EdgeType.forward })).arc j).neighbor = (g.arc j).neighbor := by
    simp [hjne]
  have e_pv : ((updA (updA g j (fun r => { r with etype := EdgeType.back })) (twinArc j)
      (fun r => { r with etype := EdgeType.forward })).arc (twinArc j)).prev =
      l1.reverse.head? := by
    simp [hjtne, hjp]
  have e_nx : ((updA (updA g j (fun r => { r with etype := EdgeType.back })) (twinArc j)
      (fun r => { r with etype := EdgeType.forward })).arc (twinArc j)).next =
      l2.head? := by
    simp [hjtne, hjn]
  unfold backEdgeRemove
  dsimp only
  rw [e_nb, e_pv, e_nx]
  clear e_nb e_pv e_nx hjp hjn
  cases hh1 : l1.reverse.head? with
  | none =>
      cases hh2 : l2.head? with
      | none =>
          clear hh1 hh2
          refine ⟨fun x => ?_, fun v => ?_⟩
          · refine ⟨?_, ?_, ?_, ?_, ?_⟩ <;>
              simp [setALink, apply_ite ARec.next, apply_ite ARec.prev,
                apply_ite ARec.etype, apply_ite ARec.neighbor, apply_ite ARec.inverted] <;>
              (try rfl)
            all_goals split_ifs <;> first | rfl | (exfalso; omega) | (congr 2 <;> omega) | simp_all
          · by_cases hv : v = (g.arc j).neighbor <;> simp [hv]
      | some n =>
          clear hh1 hh2
          refine ⟨fun x => ?_, fun v => ?_⟩
          · refine ⟨?_, ?_, ?_, ?_, ?_⟩ <;>
              by_cases hxn : x = n <;>
              simp [setALink, hxn, apply_ite ARec.next, apply_ite ARec.prev,
                apply_ite ARec.etype, apply_ite ARec.neighbor, apply_ite ARec.inverted] <;>
              (try rfl)
            all_goals split_ifs <;> first | rfl | (exfalso; omega) | (congr 2 <;> omega) | simp_all
          · by_cases hv : v = (g.arc j).neighbor <;> simp [setALink, hv]
  | some p =>
      cases hh2 : l2.head? with
      | none =>
          clear hh1 hh2
          refine ⟨fun x => ?_, fun v => ?_⟩
          · refine ⟨?_, ?_, ?_, ?_, ?_⟩ <;>
              by_cases hxp : x = p <;>
              simp [setALink, hxp, apply_ite ARec.next, apply_ite ARec.prev,
                apply_ite ARec.etype, apply_ite ARec.neighbor, apply_ite ARec.inverted] <;>
              (try rfl)
            all_goals split_ifs <;> first | rfl | (exfalso; omega) | (congr 2 <;> omega) | simp_all
          · by_cases hv : v = (g.arc j).neighbor <;> simp [setALink, hv]
      | some n =>
          clear hh1 hh2
          refine ⟨fun x => ?_, fun v => ?_⟩
          · refine ⟨?_, ?_, ?_, ?_, ?_⟩ <;>
              by_cases hxp : x = p <;> by_cases hxn : x = n <;>
              simp [setALink, hxp, hxn, apply_ite ARec.next, apply_ite ARec.prev,
                apply_ite ARec.etype, apply_ite ARec.neighbor, apply_ite ARec.inverted] <;>
              (try rfl)
            all_goals split_ifs <;> first | rfl | (exfalso; omega) | (congr 2 <;> omega) | simp_all
          · by_cases hv : v = (g.arc j).neighbor <;> simp [setALink, hv]

theorem backEdgeRemove_effect (g : GState) (u j : Nat) (l1 l2 : List Nat)
    (hA : linkChain (nextF g) ((g.vrec ((g.arc j).neighbor)).firstArc)
      (l1 ++ twinArc j :: l2))
    (hArev : linkChain (prevF g) ((g.vrec ((g.arc j).neighbor)).lastArc)
      (l2.reverse ++ twinArc j :: l1.reverse))
    (hndA : (l1 ++ twinArc j :: l2).Nodup) :
    ((backEdgeRemove g u j).arc j).etype = EdgeType.back ∧
    ((backEdgeRemove g u j).arc (twinArc j)).etype = EdgeType.forward ∧
    linkChain (nextF (backEdgeRemove g u j))
      (((backEdgeRemove g u j).vrec ((g.arc j).neighbor)).firstArc) (l1 ++ l2) ∧
    linkChain (prevF (backEdgeRemove g u j))
      (((backEdgeRemove g u j).vrec ((g.arc j).neighbor)).lastArc)
      (l2.reverse ++ l1.reverse) ∧
    (∀ x, x ≠ j → x ∉ l1 ++ twinArc j :: l2 →
      ((backEdgeRemove g u j).arc x).next = (g.arc x).next ∧
      ((backEdgeRemove g u j).arc x).prev = (g.arc x).prev ∧
      ((backEdgeRemove g u j).arc x).etype = (g.arc x).etype ∧
      ((backEdgeRemove g u j).arc x).inverted = (g.arc x).inverted) ∧
    (∀ x, ((backEdgeRemove g u j).arc x).neighbor = (g.arc x).neighbor) ∧
    (∀ v, ((backEdgeRemove g u j).vrec v).fwdArcList = (g.vrec v).fwdArcList ∧
          ((backEdgeRemove g u j).vrec v).index = (g.vrec v).index ∧
          ((backEdgeRemove g u j).vrec v).leastAncestor =
            (g.vrec v).leastAncestor) := by
  have hjp : (g.arc (twinArc j)).prev = l1.reverse.head? :=
    linkChain_start _ _ _ (linkChain_elem (prevF g) (twinArc j) l2.reverse _ l1.reverse hArev)
  have hjn : (g.arc (twinArc j)).next = l2.head? :=
    linkChain_start _ _ _ (linkChain_elem (nextF g) (twinArc j) l1 _ l2 hA)
  obtain ⟨hArc, hVrec⟩ := backEdgeRemove_master g u j l1 l2 hjp hjn
  obtain ⟨hnd1, hnd2', hdisj12⟩ := List.nodup_append.mp hndA
  have hjtnotl2 : twinArc j ∉ l2 := (List.nodup_cons.mp hnd2').1
  have hjtinA : twinArc j ∈ l1 ++ twinArc j :: l2 :=
    List.mem_append_right _ (List.mem_cons_self _ _)
  have hmem1 : ∀ b, l1.reverse.head? = some b → b ∈ l1 := by
    intro b hb
    exact List.mem_reverse.mp (List.mem_of_mem_head? (Option.mem_def.mpr hb))
  have hmem2 : ∀ b, l2.head? = some b → b ∈ l2 := by
    intro b hb
    exact List.mem_of_mem_head? (Option.mem_def.mpr hb)
  have hrevshape : (l1 ++ twinArc j :: l2).reverse =
      l2.reverse ++ twinArc j :: l1.reverse := by
    simp
  have hndArev : (l2.reverse ++ twinArc j :: l1.reverse).Nodup := by
    rw [← hrevshape]
    exact List.nodup_reverse.mpr hndA
  refine ⟨?_, ?_, ?_, ?_, ?_, ?_, ?_⟩
  · rw [(hArc j).2.2.1]
    rw [if_neg (fun hc => (twinArc_ne j) hc.symm), if_pos rfl]
  · rw [(hArc (twinArc j)).2.2.1, if_pos rfl]
  · have hstart : ((backEdgeRemove g u j).vrec ((g.arc j).neighbor)).firstArc =
        (if l1.isEmpty then nextF g (twinArc j)
         else (g.vrec ((g.arc j).neighbor)).firstArc) := by
      rw [(hVrec ((g.arc j).neighbor)).1]
      by_cases hl1e : l1 = []
      · subst hl1e
        simp [nextF, hjn]
      · have hh : l1.reverse.head? ≠ none := by
          simp [List.head?_eq_none_iff, hl1e]
        simp [hh, hl1e]
    rw [hstart]
    refine linkChain_remove (nextF g) (nextF (backEdgeRemove g u j)) (twinArc j) l1 _ l2
      hA hndA ?_ ?_
    · intro b hb
      show ((backEdgeRemove g u j).arc b).next = (g.arc b).next
      rw [(hArc b).1, if_neg]
      intro hcon
      exact hdisj12 (hmem1 b hcon) (List.mem_cons_of_mem _ hb)
    · intro p hp
      have hp' : l1.reverse.head? = some p := by
        rw [List.head?_reverse]
        exact hp
      constructor
      · show ((backEdgeRemove g u j).arc p).next = (g.arc (twinArc j)).next
        rw [(hArc p).1, if_pos hp', hjn]
      · intro b hb hbp
        show ((backEdgeRemove g u j).arc b).next = (g.arc b).next
        rw [(hArc b).1, if_neg]
        intro hcon
        rw [hp'] at hcon
        exact hbp (by injection hcon with h; exact h.symm) |>.elim
  · obtain ⟨hndr1, hndr2', hdisjr⟩ := List.nodup_append.mp hndArev
    have hstart : ((backEdgeRemove g u j).vrec ((g.arc j).neighbor)).lastArc =
        (if l2.reverse.isEmpty then prevF g (twinArc j)
         else (g.vrec ((g.arc j).neighbor)).lastArc) := by
      rw [(hVrec ((g.arc j).neighbor)).2.1]
      by_cases hl2e : l2 = []
      · subst hl2e
        simp [prevF, hjp]
      · have hh : l2.head? ≠ none := by
          simp [List.head?_eq_none_iff, hl2e]
        have hre : l2.reverse.isEmpty = false := by
          simp [hl2e]
        simp [hh, hre]
    rw [hstart]
    refine linkChain_remove (prevF g) (prevF (backEdgeRemove g u j)) (twinArc j)
      l2.reverse _ l1.reverse hArev hndArev ?_ ?_
    · intro b hb
      show ((backEdgeRemove g u j).arc b).prev = (g.arc b).prev
      rw [(hArc b).2.1, if_neg]
      intro hcon
      exact hdisjr (List.mem_reverse.mpr (hmem2 b hcon))
        (List.mem_cons_of_mem _ hb)
    · intro p hp
      have hp' : l2.head? = some p := by
        rw [← List.getLast?_reverse]
        exact hp
      constructor
      · show ((backEdgeRemove g u j).arc p).prev = (g.arc (twinArc j)).prev
        rw [(hArc p).2.1, if_pos hp', hjp]
      · intro b hb hbp
        show ((backEdgeRemove g u j).arc b).prev = (g.arc b).prev
        rw [(hArc b).2.1, if_neg]
        intro hcon
        rw [hp'] at hcon
        exact hbp (by injection hcon with h; exact h.symm) |>.elim
  · intro x hxj hxA
    refine ⟨?_, ?_, ?_, ?_⟩
    · rw [(hArc x).1, if_neg]
      intro hcon
      exact hxA (List.mem_append_left _ (hmem1 x hcon))
    · rw [(hArc x).2.1, if_neg]
      intro hcon
      exact hxA (List.mem_append_right _ (List.mem_cons_of_mem _ (hmem2 x hcon)))
    · rw [(hArc x).2.2.1]
      rw [if_neg (fun hc : x = twinArc j => hxA (by rw [hc]; exact hjtinA)),
        if_neg hxj]
    · exact (hArc x).2.2.2.2
  · intro x
    exact (hArc x).2.2.2.1
  · intro v
    exact ⟨(hVrec v).2.2.1, (hVrec v).2.2.2.1, (hVrec v).2.2.2.2.1⟩

set_option maxRecDepth 8192 in
set_option maxHeartbeats 1600000 in
theorem backEdgeInsertFwd_master (g : GState) (u j hd lf : Nat)
    (hF : (g.vrec ((g.arc j).neighbor)).fwdArcList = some hd)
    (hp2 : (g.arc hd).prev = some lf) :
    (∀ x, ((backEdgeInsertFwd g u j).arc x).next =
            (if x = lf then some (twinArc j)
             else if x = twinArc j then some hd else (g.arc x).next) ∧
          ((backEdgeInsertFwd g u j).arc x).prev =
            (if x = hd then some (twinArc j)
             else if x = twinArc j then some lf else (g.arc x).prev) ∧
          ((backEdgeInsertFwd g u j).arc x).etype = (g.arc x).etype ∧
          ((backEdgeInsertFwd g u j).arc x).neighbor = (g.arc x).neighbor ∧
          ((backEdgeInsertFwd g u j).arc x).inverted = (g.arc x).inverted) ∧
    (∀ v, ((backEdgeInsertFwd g u j).vrec v).index = (g.vrec v).index ∧
          ((backEdgeInsertFwd g u j).vrec v).firstArc = (g.vrec v).firstArc ∧
          ((backEdgeInsertFwd g u j).vrec v).lastArc = (g.vrec v).lastArc ∧
          ((backEdgeInsertFwd g u j).vrec v).fwdArcList = (g.vrec v).fwdArcList ∧
          ((backEdgeInsertFwd g u j).vrec v).pertinentAdjacencyInfo =
            (g.vrec v).pertinentAdjacencyInfo) := by
  unfold backEdgeInsertFwd
  dsimp only
  rw [hF]
  dsimp only
  rw [hp2]
  dsimp only [setALinkO]
  constructor
  · intro x
    refine ⟨?_, ?_, ?_, ?_, ?_⟩ <;>
      split <;>
      by_cases hx1 : x = lf <;> by_cases hx2 : x = twinArc j <;> by_cases hx3 : x = hd <;>
      simp [setALink, hx1, hx2, hx3, apply_ite ARec.next, apply_ite ARec.prev,
        apply_ite ARec.etype, apply_ite ARec.neighbor, apply_ite ARec.inverted] <;>
      (try rfl)
    all_goals split_ifs <;> first | rfl | (exfalso; omega) | (congr 2 <;> omega) | simp_all
  · intro v
    refine ⟨?_, ?_, ?_, ?_, ?_⟩ <;>
      split <;>
      by_cases hv : v = u <;>
      simp [setALink, hv]

theorem backEdgeInsertFwd_effect (g : GState) (u j hd lf : Nat) (t : List Nat)
    (hF : (g.vrec ((g.arc j).neighbor)).fwdArcList = some hd)
    (hc1 : pathChain (nextF g) hd t hd)
    (hc2 : pathChain (prevF g) hd t.reverse hd)
    (hhn : hd ∉ t) (hnd : t.Nodup)
    (hjtF : twinArc j ∉ hd :: t)
    (hlf : t.reverse.head?.getD hd = lf) :
    pathChain (nextF (backEdgeInsertFwd g u j)) hd (t ++ [twinArc j]) hd ∧
    pathChain (prevF (backEdgeInsertFwd g u j)) hd (twinArc j :: t.reverse) hd ∧
    (∀ x, ((backEdgeInsertFwd g u j).arc x).etype = (g.arc x).etype ∧
          ((backEdgeInsertFwd g u j).arc x).neighbor = (g.arc x).neighbor) ∧
    (∀ v, ((backEdgeInsertFwd g u j).vrec v).index = (g.vrec v).index ∧
          ((backEdgeInsertFwd g u j).vrec v).firstArc = (g.vrec v).firstArc ∧
          ((backEdgeInsertFwd g u j).vrec v).lastArc = (g.vrec v).lastArc ∧
          ((backEdgeInsertFwd g u j).vrec v).fwdArcList = (g.vrec v).fwdArcList) ∧
    (∀ x, x ≠ twinArc j → x ∉ hd :: t →
      ((backEdgeInsertFwd g u j).arc x).next = (g.arc x).next ∧
      ((backEdgeInsertFwd g u j).arc x).prev = (g.arc x).prev) := by
  have hp2 : (g.arc hd).prev = some lf := by
    cases hrt : t.reverse with
    | nil =>
        rw [hrt] at hc2 hlf
        simp only [List.head?_nil, Option.getD_none] at hlf
        rw [← hlf]
        exact hc2
    | cons q rs =>
        rw [hrt] at hc2 hlf
        simp only [List.head?_cons, Option.getD_some] at hlf
        rw [← hlf]
        exact hc2.1
  have hlf' : (t.reverse.head?.getD hd) = lf := hlf
  obtain ⟨hArc, hVrec⟩ := backEdgeInsertFwd_master g u j hd lf hF hp2
  have hjthd : twinArc j ≠ hd := fun hc => hjtF (hc ▸ List.mem_cons_self _ _)
  have hjtmem : ∀ x ∈ t, x ≠ twinArc j :=
    fun x hx hc => hjtF (hc ▸ List.mem_cons_of_mem _ hx)
  have hlfmem : lf ∈ hd :: t := by
    cases hrt : t.reverse with
    | nil =>
        rw [hrt] at hlf
        simp only [List.head?_nil, Option.getD_none] at hlf
        rw [← hlf]
        exact List.mem_cons_self _ _
    | cons q rs =>
        rw [hrt] at hlf
        simp only [List.head?_cons, Option.getD_some] at hlf
        have hq : q ∈ t.reverse := by rw [hrt]; exact List.mem_cons_self _ _
        rw [← hlf]
        exact List.mem_cons_of_mem _ (List.mem_reverse.mp hq)
  have hjtlf : twinArc j ≠ lf := fun hc => hjtF (hc ▸ hlfmem)
  refine ⟨?_, ?_, ?_, ?_, ?_⟩
  · refine pathChain_divert (nextF g) (nextF (backEdgeInsertFwd g u j)) hd (twinArc j)
      t hd lf hc1 hhn hnd ?_ ?_ ?_ ?_
    · rw [← List.head?_reverse]
      exact hlf'
    · intro x hx hxlf
      show ((backEdgeInsertFwd g u j).arc x).next = (g.arc x).next
      rw [(hArc x).1, if_neg hxlf, if_neg]
      rcases hx with rfl | hx
      · exact fun hc => hjthd hc.symm
      · exact fun hc => (hjtmem x hx) hc
    · show ((backEdgeInsertFwd g u j).arc lf).next = some (twinArc j)
      rw [(hArc lf).1, if_pos rfl]
    · show ((backEdgeInsertFwd g u j).arc (twinArc j)).next = some hd
      rw [(hArc (twinArc j)).1, if_neg (fun hc => hjtlf hc), if_pos rfl]
  · refine ⟨?_, ?_⟩
    · show ((backEdgeInsertFwd g u j).arc hd).prev = some (twinArc j)
      rw [(hArc hd).2.1, if_pos rfl]
    · cases hrt : t.reverse with
      | nil =>
          rw [hrt] at hlf
          simp only [List.head?_nil, Option.getD_none] at hlf
          show ((backEdgeInsertFwd g u j).arc (twinArc j)).prev = some hd
          rw [(hArc (twinArc j)).2.1, if_neg (fun hc => hjthd hc), if_pos rfl, hlf]
      | cons q rs =>
          rw [hrt] at hlf
          simp only [List.head?_cons, Option.getD_some] at hlf
          refine ⟨?_, ?_⟩
          · show ((backEdgeInsertFwd g u j).arc (twinArc j)).prev = some q
            rw [(hArc (twinArc j)).2.1, if_neg (fun hc => hjthd hc), if_pos rfl, ← hlf]
          · have hc2' : pathChain (prevF g) q rs hd := by
              rw [hrt] at hc2
              exact hc2.2
            refine pathChain_congr (prevF g) (prevF (backEdgeInsertFwd g u j)) rs q hd
              ?_ hc2'
            intro x hx
            have hxt : x ∈ t := by
              rcases hx with rfl | hx
              · exact List.mem_reverse.mp (by rw [hrt]; exact List.mem_cons_self _ _)
              · exact List.mem_reverse.mp (by rw [hrt]; exact List.mem_cons_of_mem _ hx)
            show ((backEdgeInsertFwd g u j).arc x).prev = (g.arc x).prev
            rw [(hArc x).2.1,
              if_neg (fun hc : x = hd => hhn (by rw [← hc]; exact hxt)), if_neg]
            exact fun hc => (hjtmem x hxt) hc
  · intro x
    exact ⟨(hArc x).2.2.1, (hArc x).2.2.2.1⟩
  · intro v
    exact ⟨(hVrec v).1, (hVrec v).2.1, (hVrec v).2.2.1, (hVrec v).2.2.2.1⟩
  · intro x hxjt hxF
    have hxhd : x ≠ hd := fun hc => hxF (hc ▸ List.mem_cons_self _ _)
    have hxlf : x ≠ lf := fun hc => hxF (hc ▸ hlfmem)
    exact ⟨by rw [(hArc x).1, if_neg hxlf, if_neg hxjt],
      by rw [(hArc x).2.1, if_neg hxhd, if_neg hxjt]⟩

/-- Claim C2 (corrected): during the DFS of _EmbeddingInitialize, an arc `j`
to a visited non-parent neighbor is typed back and its twin typed forward,
and the twin is removed from the ancestor's adjacency list and APPENDED to
the ancestor's circular fwdArcList - it is inserted just before the head and
the head is left unchanged, so it becomes the last arc of a head-first
traversal - which keeps that traversal in ascending descendant-DFI order
(the claim's word "prepended" is refuted by fwdArc_prepend_counterexample). -/
theorem backEdgeStep_appends_fwdArc (g : GState) (u j hd : Nat)
    (l1 l2 t : List Nat)
    (hA : linkChain (nextF g) ((g.vrec ((g.arc j).neighbor)).firstArc)
      (l1 ++ twinArc j :: l2))
    (hArev : linkChain (prevF g) ((g.vrec ((g.arc j).neighbor)).lastArc)
      (l2.reverse ++ twinArc j :: l1.reverse))
    (hndA : (l1 ++ twinArc j :: l2).Nodup)
    (hF : (g.vrec ((g.arc j).neighbor)).fwdArcList = some hd)
    (hFc : circOk g (hd :: t))
    (hndF : (hd :: t).Nodup)
    (hdisj : ∀ a ∈ hd :: t, a ∉ l1 ++ twinArc j :: l2)
    (hjF : j ∉ hd :: t)
    (hnbr : (g.arc (twinArc j)).neighbor = u)
    (hsort : ((hd :: t).map (descendantDFI g)).Sorted (· < ·))
    (hlt : ∀ a ∈ hd :: t, descendantDFI g a < (g.vrec u).index) :
    ((backEdgeStep g u j).arc j).etype = EdgeType.back ∧
    ((backEdgeStep g u j).arc (twinArc j)).etype = EdgeType.forward ∧
    ((backEdgeStep g u j).vrec ((g.arc j).neighbor)).fwdArcList = some hd ∧
    circOk (backEdgeStep g u j) (hd :: (t ++ [twinArc j])) ∧
    ((hd :: (t ++ [twinArc j])).map
      (descendantDFI (backEdgeStep g u j))).Sorted (· < ·) ∧
    linkChain (nextF (backEdgeStep g u j))
      (((backEdgeStep g u j).vrec ((g.arc j).neighbor)).firstArc) (l1 ++ l2) ∧
    linkChain (prevF (backEdgeStep g u j))
      (((backEdgeStep g u j).vrec ((g.arc j).neighbor)).lastArc)
      (l2.reverse ++ l1.reverse) := by
  obtain ⟨hRj, hRjt, hRchainN, hRchainP, hRpres, hRnb, hRvrec⟩ :=
    backEdgeRemove_effect g u j l1 l2 hA hArev hndA
  obtain ⟨hnd1, hnd2', hdisj12⟩ := List.nodup_append.mp hndA
  have hjtl1 : twinArc j ∉ l1 := fun hc => hdisj12 hc (List.mem_cons_self _ _)
  have hjtl2 : twinArc j ∉ l2 := (List.nodup_cons.mp hnd2').1
  have hjtinA : twinArc j ∈ l1 ++ twinArc j :: l2 :=
    List.mem_append_right _ (List.mem_cons_self _ _)
  have hjtF : twinArc j ∉ hd :: t := fun hc => hdisj _ hc hjtinA
  have hanc4 : ((backEdgeRemove g u j).arc j).neighbor = (g.arc j).neighbor := hRnb j
  have hF4 : ((backEdgeRemove g u j).vrec
      (((backEdgeRemove g u j).arc j).neighbor)).fwdArcList = some hd := by
    rw [hanc4, (hRvrec ((g.arc j).neighbor)).1]
    exact hF
  have hFpres : ∀ x ∈ hd :: t,
      ((backEdgeRemove g u j).arc x).next = (g.arc x).next ∧
      ((backEdgeRemove g u j).arc x).prev = (g.arc x).prev := by
    intro x hx
    have hxne : x ≠ j := fun hc => hjF (by rw [← hc]; exact hx)
    have h := hRpres x hxne (hdisj x hx)
    exact ⟨h.1, h.2.1⟩
  have hc1' : pathChain (nextF (backEdgeRemove g u j)) hd t hd := by
    refine pathChain_congr (nextF g) _ t hd hd ?_ hFc.1
    intro x hx
    refine (hFpres x ?_).1
    rcases hx with rfl | hx
    · exact List.mem_cons_self _ _
    · exact List.mem_cons_of_mem _ hx
  have hc2' : pathChain (prevF (backEdgeRemove g u j)) hd t.reverse hd := by
    refine pathChain_congr (prevF g) _ t.reverse hd hd ?_ hFc.2
    intro x hx
    refine (hFpres x ?_).2
    rcases hx with rfl | hx
    · exact List.mem_cons_self _ _
    · exact List.mem_cons_of_mem _ (List.mem_reverse.mp hx)
  have hhn : hd ∉ t := (List.nodup_cons.mp hndF).1
  have hndt : t.Nodup := (List.nodup_cons.mp hndF).2
  obtain ⟨hI1, hI2, hIpres, hIvrec, hIout⟩ :=
    backEdgeInsertFwd_effect (backEdgeRemove g u j) u j hd
      (t.reverse.head?.getD hd) t hF4 hc1' hc2' hhn hndt hjtF rfl
  have hAmem : ∀ b ∈ l1 ++ l2, b ∈ l1 ++ twinArc j :: l2 := by
    intro b hb
    rcases List.mem_append.mp hb with hb | hb
    · exact List.mem_append_left _ hb
    · exact List.mem_append_right _ (List.mem_cons_of_mem _ hb)
  have hout12 : ∀ b ∈ l1 ++ l2,
      ((backEdgeStep g u j).arc b).next = ((backEdgeRemove g u j).arc b).next ∧
      ((backEdgeStep g u j).arc b).prev = ((backEdgeRemove g u j).arc b).prev := by
    intro b hb
    refine hIout b ?_ ?_
    · intro hc
      rcases List.mem_append.mp hb with hb' | hb'
      · exact hjtl1 (hc ▸ hb')
      · exact hjtl2 (hc ▸ hb')
    · intro hc
      exact hdisj b hc (hAmem b hb)
  have hdesc : ∀ x, descendantDFI (backEdgeStep g u j) x = descendantDFI g x := by
    intro x
    unfold descendantDFI
    show ((backEdgeInsertFwd (backEdgeRemove g u j) u j).vrec
      (((backEdgeInsertFwd (backEdgeRemove g u j) u j).arc x).neighbor)).index =
      (g.vrec ((g.arc x).neighbor)).index
    rw [(hIpres x).2, hRnb x, (hIvrec ((g.arc x).neighbor)).1,
      (hRvrec ((g.arc x).neighbor)).2.1]
  refine ⟨?_, ?_, ?_, ?_, ?_, ?_, ?_⟩
  · exact (hIpres j).1.trans hRj
  · exact (hIpres (twinArc j)).1.trans hRjt
  · show ((backEdgeInsertFwd (backEdgeRemove g u j) u j).vrec
      ((g.arc j).neighbor)).fwdArcList = some hd
    rw [(hIvrec ((g.arc j).neighbor)).2.2.2, (hRvrec ((g.arc j).neighbor)).1]
    exact hF
  · refine ⟨hI1, ?_⟩
    show pathChain (prevF (backEdgeInsertFwd (backEdgeRemove g u j) u j)) hd
      ((t ++ [twinArc j]).reverse) hd
    have hsh : (t ++ [twinArc j]).reverse = twinArc j :: t.reverse := by simp
    rw [hsh]
    exact hI2
  · have hmap : (hd :: (t ++ [twinArc j])).map (descendantDFI (backEdgeStep g u j)) =
        ((hd :: t).map (descendantDFI g)) ++ [(g.vrec u).index] := by
      have hshape : hd :: (t ++ [twinArc j]) = (hd :: t) ++ [twinArc j] := by simp
      rw [hshape, List.map_append]
      congr 1
      · exact List.map_congr_left (fun x _ => hdesc x)
      · show [descendantDFI (backEdgeStep g u j) (twinArc j)] = [(g.vrec u).index]
        rw [hdesc (twinArc j)]
        unfold descendantDFI
        rw [hnbr]
    rw [hmap]
    refine List.pairwise_append.mpr ⟨hsort, List.pairwise_singleton _ _, ?_⟩
    intro a ha b hb
    obtain ⟨x, hx, rfl⟩ := List.mem_map.mp ha
    rw [List.mem_singleton.mp hb]
    exact hlt x hx
  · show linkChain (nextF (backEdgeInsertFwd (backEdgeRemove g u j) u j))
      (((backEdgeInsertFwd (backEdgeRemove g u j) u j).vrec
        ((g.arc j).neighbor)).firstArc) (l1 ++ l2)
    rw [(hIvrec ((g.arc j).neighbor)).2.1]
    refine linkChain_congr (nextF (backEdgeRemove g u j)) _ (l1 ++ l2) _ ?_ hRchainN
    intro b hb
    exact (hout12 b hb).1
  · show linkChain (prevF (backEdgeInsertFwd (backEdgeRemove g u j) u j))
      (((backEdgeInsertFwd (backEdgeRemove g u j) u j).vrec
        ((g.arc j).neighbor)).lastArc) (l2.reverse ++ l1.reverse)
    rw [(hIvrec ((g.arc j).neighbor)).2.2.1]
    refine linkChain_congr (prevF (backEdgeRemove g u j)) _ (l2.reverse ++ l1.reverse)
      _ ?_ hRchainP
    intro b hb
    have hbA : b ∈ l1 ++ l2 := by
      rcases List.mem_append.mp hb with hb' | hb'
      · exact List.mem_append_right _ (List.mem_reverse.mp hb')
      · exact List.mem_append_left _ (List.mem_reverse.mp hb')
    exact (hout12 b hbA).2

/-- Witness for C2: on the concrete state cexC2, vertex 2's back edge arc 3
is processed; every hypothesis holds by computation and the conclusion
follows by the theorem. -/
theorem backEdgeStep_appends_fwdArc_witness :
    ((backEdgeStep cexC2 2 3).arc 3).etype = EdgeType.back ∧
    ((backEdgeStep cexC2 2 3).arc (twinArc 3)).etype = EdgeType.forward ∧
    ((backEdgeStep cexC2 2 3).vrec ((cexC2.arc 3).neighbor)).fwdArcList = some 6 ∧
    circOk (backEdgeStep cexC2 2 3) (6 :: (([] : List Nat) ++ [twinArc 3])) ∧
    ((6 :: (([] : List Nat) ++ [twinArc 3])).map
      (descendantDFI (backEdgeStep cexC2 2 3))).Sorted (· < ·) ∧
    linkChain (nextF (backEdgeStep cexC2 2 3))
      (((backEdgeStep cexC2 2 3).vrec ((cexC2.arc 3).neighbor)).firstArc)
      (([] : List Nat) ++ []) ∧
    linkChain (prevF (backEdgeStep cexC2 2 3))
      (((backEdgeStep cexC2 2 3).vrec ((cexC2.arc 3).neighbor)).lastArc)
      (List.reverse ([] : List Nat) ++ List.reverse ([] : List Nat)) :=
  backEdgeStep_appends_fwdArc cexC2 2 3 6 [] [] [] (by decide) (by decide)
    (by decide) (by decide) (by decide) (by decide) (by decide) (by decide)
    (by decide) (by decide) (by decide)

/-- Counterexample to C2's word "prepended": on cexC2 the ancestor's
fwdArcList is non-empty with head arc 6; after processing back edge arc 3
the head is unchanged (in particular it is not the newly moved twin arc 2),
and the twin sits just before the head - the tail of a head-first traversal
- so the twin was appended, not prepended. -/
theorem fwdArc_prepend_counterexample :
    (cexC2.vrec 0).fwdArcList = some 6 ∧
    ((backEdgeStep cexC2 2 3).arc 3).etype = EdgeType.back ∧
    ((backEdgeStep cexC2 2 3).arc 2).etype = EdgeType.forward ∧
    ((backEdgeStep cexC2 2 3).vrec 0).fwdArcList = some 6 ∧
    ((backEdgeStep cexC2 2 3).vrec 0).fwdArcList ≠ some (twinArc 3) ∧
    ((backEdgeStep cexC2 2 3).arc 6).next = some 2 ∧
    ((backEdgeStep cexC2 2 3).arc 2).next = some 6 ∧
    ((backEdgeStep cexC2 2 3).arc 6).prev = some 2 ∧
    ((backEdgeStep cexC2 2 3).arc 2).prev = some 6 := by
  decide
